import Mathlib

/-!
Verification of the product-matching and deduplication pipeline of the
roworks scrapers repository (src/bom-layres-product-inggestion.js and
src/urdf-product-ingestion.js), as a shallow embedding in Lean 4.

Modelling conventions:
* JavaScript strings are Lean `String`s (lists of Unicode code points); the
  regex class `\s` is modelled by `jsIsSpace`, covering the ASCII whitespace
  characters plus the common Unicode ones (NBSP, LS, PS, BOM).
* JavaScript numbers that flow through the pipeline (prices) are modelled as
  rationals `ℚ`; every numeric literal the code manipulates is decimal, so
  the comparisons `price > 0` and `price < 1000000` agree with IEEE doubles.
* `null`/`undefined`-able fields are `Option`s; JS truthiness of a string is
  `s != ""`, of a number `q != 0`.
* MongoDB collections are lists of documents paired with a fresh-id counter;
  `findOne` is `List.find?` (natural order = insertion order), `insertOne`
  appends, `updateOne` maps over the list, `$addToSet ... $each` folds an
  insert-if-not-member over the new elements (whole-document equality).
* The concurrent `Promise.allSettled` fan-out of a batch is modelled by the
  sequential linearization in file order; per-document effects are chains of
  awaited calls, so each document's transition is atomic in the model.
* External collaborators (Textract / URDF parsing, the OpenAI response,
  acknowledgement of Mongo writes) are data carried by each document spec:
  an `Except` for the text fetch, the candidate list the model returned, and
  acknowledgement oracles for inserts.
-/

-- ---------------- JS string primitives ----------------

/-- The JS `\s` character class (fragment: ASCII whitespace + NBSP, LS, PS, BOM). -/
def jsIsSpace (c : Char) : Bool :=
  c == ' ' || c == '\t' || c == '\n' || c == '\r' || c == '\u000B' || c == '\u000C' ||
  c == '\u00A0' || c == '\u2028' || c == '\u2029' || c == '\uFEFF'

def lowerChars (cs : List Char) : List Char := cs.map Char.toLower

/-- JS `String.prototype.toLowerCase` (ASCII case mapping). -/
def jsToLower (s : String) : String := String.mk (lowerChars s.data)

def trimChars (cs : List Char) : List Char :=
  ((cs.dropWhile jsIsSpace).reverse.dropWhile jsIsSpace).reverse

/-- JS `String.prototype.trim`. -/
def jsTrim (s : String) : String := String.mk (trimChars s.data)

/-- The separator class of the tokenizing regex `[\s\-_]+`. -/
def isNameSep (c : Char) : Bool := jsIsSpace c || c == '-' || c == '_'

/-- JS `String.prototype.split` on a one-or-more character-class regex:
separators are maximal runs of the class; empty fields are kept at the
boundaries (`"".split` gives `[""]`, `" a".split(/\s+/)` gives `["", "a"]`). -/
def splitRunsGo (p : Char → Bool) : Bool → List Char → List Char → List (List Char)
  | _, [], acc => [acc.reverse]
  | inSep, c :: rest, acc =>
    if p c then
      if inSep then splitRunsGo p true rest acc
      else acc.reverse :: splitRunsGo p true rest []
    else splitRunsGo p false rest (c :: acc)

def splitRuns (p : Char → Bool) (s : String) : List String :=
  (splitRunsGo p false s.data []).map String.mk

/-- JS `replace(/\s+/g, String.fromCharCode(rep))`: collapse every whitespace
run to the single character `rep`. -/
def collapseWsGo (rep : Char) : Bool → List Char → List Char
  | _, [] => []
  | inWs, c :: rest =>
    if jsIsSpace c then
      if inWs then collapseWsGo rep true rest
      else rep :: collapseWsGo rep true rest
    else c :: collapseWsGo rep false rest

def collapseWs (s : String) (rep : Char) : String := String.mk (collapseWsGo rep false s.data)

/-- JS `replace(/\s+/g, "")`: drop every whitespace character. -/
def stripWs (s : String) : String := String.mk (s.data.filter (fun c => !jsIsSpace c))

/-- `[...new Set(xs)]`: deduplicate keeping the first occurrence of each value. -/
def dedupAux : List String → List String → List String
  | _, [] => []
  | seen, x :: rest => if x ∈ seen then dedupAux seen rest else x :: dedupAux (x :: seen) rest

def dedupFirst (xs : List String) : List String := dedupAux [] xs

-- ---------------- normalizeProductData ----------------

structure NormKey where
  brand_norm : String
  name_norm : String
  name_tokens : List String
  aliases : List String
deriving DecidableEq, Repr

/-- `normalizeProductData` (identical in both ingestion scripts), restricted to
string-typed `name`/`brand` and string-or-null `product_type` (for arbitrary
JS values see `normalizeJS` below).  `(x || "")` on a string is the string
itself or `""`, so it is the identity here. -/
def normalizeFields (name brand : String) (product_type : Option String) : NormKey :=
  let brandNorm := jsTrim (jsToLower brand)
  let nameNorm := jsTrim (jsToLower name)
  let nameTokens := (splitRuns isNameSep nameNorm).filter (fun t => t.length != 0)
  let aliases :=
    if nameNorm != "" then
      [nameNorm, stripWs nameNorm, collapseWs nameNorm '-', collapseWs nameNorm '_'] ++
        (match product_type with
         | some pt => if pt != "" then [nameNorm ++ " " ++ jsToLower pt] else []
         | none => [])
    else []
  { brand_norm := brandNorm, name_norm := nameNorm, name_tokens := nameTokens,
    aliases := dedupFirst aliases }

/-- A matcher candidate (output of the OpenAI matching step) with the fields
the pipeline reads, in the typed fragment (strings / numbers / null). -/
structure Candidate where
  name : String
  brand : String
  product_type : Option String := none
  sub_type : Option String := none
  price : Option ℚ := none
  page : Option Nat := none
  component_type : Option String := none
deriving DecidableEq, Repr

def normalizeProductData (c : Candidate) : NormKey :=
  normalizeFields c.name c.brand c.product_type

-- ---------------- dynamic (JS-value) normalizer ----------------

/-- A fragment of JS runtime values, for candidates whose fields are not
necessarily strings (candidates come from `JSON.parse` of model output). -/
inductive JSVal where
  | null
  | undef
  | bool (b : Bool)
  | num (q : ℚ)
  | str (s : String)
  | obj
deriving DecidableEq, Repr

def truthy : JSVal → Bool
  | .null => false
  | .undef => false
  | .bool b => b
  | .num q => q != 0
  | .str s => s != ""
  | .obj => true

def jsOr (v w : JSVal) : JSVal := if truthy v then v else w

/-- `v.toLowerCase()` — a TypeError unless `v` is a string. -/
def jsToLowerVal : JSVal → Except String String
  | .str s => .ok (jsToLower s)
  | _ => .error "TypeError: toLowerCase is not a function"

/-- `normalizeProductData` on arbitrary JS field values, following the source
line by line: `(product.brand || "").toLowerCase().trim()`, then the same for
`name`, then tokenization, then the alias pushes guarded by `if (nameNorm)`
and `if (product.product_type)` (the latter calls
`product.product_type.toLowerCase()` unguarded). -/
def normalizeJS (name brand product_type : JSVal) : Except String NormKey := do
  let b ← jsToLowerVal (jsOr brand (.str ""))
  let brandNorm := jsTrim b
  let n ← jsToLowerVal (jsOr name (.str ""))
  let nameNorm := jsTrim n
  let nameTokens := (splitRuns isNameSep nameNorm).filter (fun t => t.length != 0)
  let aliases ←
    if nameNorm != "" then
      if truthy product_type then do
        let pt ← jsToLowerVal product_type
        pure [nameNorm, stripWs nameNorm, collapseWs nameNorm '-', collapseWs nameNorm '_',
              nameNorm ++ " " ++ pt]
      else
        pure [nameNorm, stripWs nameNorm, collapseWs nameNorm '-', collapseWs nameNorm '_']
    else pure ([] : List String)
  return { brand_norm := brandNorm, name_norm := nameNorm, name_tokens := nameTokens,
           aliases := dedupFirst aliases }

/-- Candidates whose three normalized fields are each a string or falsy
(the domain on which `normalizeJS` cannot raise a TypeError). -/
def strOrFalsy : JSVal → Bool
  | .str _ => true
  | v => !truthy v

-- ---------------- extractPrice (fallback price heuristic) ----------------

/-- The regex digit class `\d`. -/
def isDig (c : Char) : Bool := c.isDigit

/-- The class `[.,]` used inside the numeral sub-pattern. -/
def isSepDot (c : Char) : Bool := c == '.' || c == ','

/-- The currency-symbol class `[$€£¥]`. -/
def isCurrency (c : Char) : Bool := c == '$' || c == '€' || c == '£' || c == '¥'

/-- The regex word class `\w` (for `\b`). -/
def isWordChar (c : Char) : Bool := c.isAlphanum || c == '_'

/-- All ways to match `\d{1,3}` at the head, in the backtracking order of a
greedy bounded repetition (longest first); each way is (consumed, rest). -/
def digitAlts : List Char → List (List Char × List Char)
  | c1 :: c2 :: c3 :: rest =>
    if isDig c1 then
      if isDig c2 then
        if isDig c3 then
          [([c1, c2, c3], rest), ([c1, c2], c3 :: rest), ([c1], c2 :: c3 :: rest)]
        else [([c1, c2], c3 :: rest), ([c1], c2 :: c3 :: rest)]
      else [([c1], c2 :: c3 :: rest)]
    else []
  | [c1, c2] =>
    if isDig c1 then
      if isDig c2 then [([c1, c2], []), ([c1], [c2])] else [([c1], [c2])]
    else []
  | [c1] => if isDig c1 then [([c1], [])] else []
  | [] => []

/-- One `[.,]\d{3}` group at the head. -/
def sepChunk3 : List Char → Option (List Char × List Char)
  | c :: d1 :: d2 :: d3 :: rest =>
    if isSepDot c && isDig d1 && isDig d2 && isDig d3 then some ([c, d1, d2, d3], rest)
    else none
  | _ => none

/-- All ways to match `(?:[.,]\d{3})*` at the head, greedy-first (most
repetitions first), fuelled by the input length. -/
def starAllF : Nat → List Char → List (List Char × List Char)
  | 0, cs => [([], cs)]
  | fuel + 1, cs =>
    match sepChunk3 cs with
    | none => [([], cs)]
    | some (t, rest) =>
      ((starAllF fuel rest).map (fun pr => (t ++ pr.1, pr.2))) ++ [([], cs)]

def starAll (cs : List Char) : List (List Char × List Char) := starAllF cs.length cs

/-- The two ways (present-first) to match `(?:[.,]\d{2})?` at the head. -/
def opt2Sep : List Char → List (List Char × List Char)
  | c :: d1 :: d2 :: rest =>
    if isSepDot c && isDig d1 && isDig d2 then [([c, d1, d2], rest), ([], c :: d1 :: d2 :: rest)]
    else [([], c :: d1 :: d2 :: rest)]
  | cs => [([], cs)]

/-- All ways to match the numeral `\d{1,3}(?:[.,]\d{3})*(?:[.,]\d{2})?` at the
head, in JS backtracking order. -/
def numeralAlts (cs : List Char) : List (List Char × List Char) :=
  (digitAlts cs).flatMap (fun a =>
    (starAll a.2).flatMap (fun b =>
      (opt2Sep b.2).map (fun c => (a.1 ++ b.1 ++ c.1, c.2))))

/-- Greedy-first numeral at the head (the capture when nothing follows it). -/
def firstNumeralAt (cs : List Char) : Option (List Char) := (numeralAlts cs).head?.map (·.1)

/-- Case-insensitive `startsWith` against a lowercase pattern literal. -/
def ciStarts (pat cs : List Char) : Bool :=
  decide ((cs.take pat.length).map Char.toLower = pat)

/-- Pattern 1: `[$€£¥]\s*(\d{1,3}(?:[.,]\d{3})*(?:[.,]\d{2})?)` at one position. -/
def p1At (_prev : Option Char) : List Char → Option (List Char)
  | c :: rest =>
    if isCurrency c then
      match firstNumeralAt (rest.dropWhile jsIsSpace) with
      | some num => some (c :: (rest.takeWhile jsIsSpace ++ num))
      | none => none
    else none
  | [] => none

def currencyCodes : List (List Char) :=
  [['u', 's', 'd'], ['e', 'u', 'r'], ['g', 'b', 'p'], ['j', 'p', 'y'],
   ['c', 'a', 'd'], ['a', 'u', 'd']]

/-- Pattern 2: `(\d{1,3}(?:[.,]\d{3})*(?:[.,]\d{2})?)\s*(?:USD|EUR|GBP|JPY|CAD|AUD)`
(case-insensitive) at one position; the numeral backtracks against the suffix. -/
def p2At (_prev : Option Char) (cs : List Char) : Option (List Char) :=
  (numeralAlts cs).findSome? (fun pr =>
    let r2 := pr.2.dropWhile jsIsSpace
    if currencyCodes.any (fun k => ciStarts k r2) then
      some (pr.1 ++ pr.2.takeWhile jsIsSpace ++ r2.take 3)
    else none)

def kwAlts : List (List Char) :=
  [['p', 'r', 'i', 'c', 'e'], ['c', 'o', 's', 't'],
   ['p', 'r', 'i', 'c', 'i', 'n', 'g']]

def isSpaceColon (c : Char) : Bool := jsIsSpace c || c == ':'

/-- Continuation of pattern 3 after a matched keyword:
`[\s:]*[$€£¥]?\s*(numeral)`.  The classes `[\s:]`, the currency symbols and
`\d` are pairwise disjoint, so the maximal-munch of `[\s:]*` plus the two
branches of `[$€£¥]?` is equivalent to full regex backtracking here. -/
def p3Cont (kwChars rest : List Char) : Option (List Char) :=
  let g := rest.takeWhile isSpaceColon
  let r1 := rest.dropWhile isSpaceColon
  match r1 with
  | c :: r1' =>
    if isCurrency c then
      match firstNumeralAt (r1'.dropWhile jsIsSpace) with
      | some num => some (kwChars ++ g ++ (c :: (r1'.takeWhile jsIsSpace ++ num)))
      | none => none
    else
      match firstNumeralAt r1 with
      | some num => some (kwChars ++ g ++ num)
      | none => none
  | [] => none

/-- Pattern 3: `(?:price|cost|pricing)[\s:]*[$€£¥]?\s*(numeral)` (case
insensitive) at one position; the alternation backtracks in source order. -/
def p3At (_prev : Option Char) (cs : List Char) : Option (List Char) :=
  kwAlts.findSome? (fun kw =>
    if ciStarts kw cs then p3Cont (cs.take kw.length) (cs.drop kw.length) else none)

/-- Pattern 4: `\b(\d{1,3}(?:[.,]\d{3})*\.\d{2})\b` at one position (needs the
preceding character for the left word boundary). -/
def p4At (prev : Option Char) (cs : List Char) : Option (List Char) :=
  let boundary := match prev with
    | none => true
    | some p => !isWordChar p
  if boundary then
    (digitAlts cs).findSome? (fun a =>
      (starAll a.2).findSome? (fun b =>
        match b.2 with
        | '.' :: d1 :: d2 :: r3 =>
          if isDig d1 && isDig d2 &&
              (match r3 with | [] => true | c :: _ => !isWordChar c) then
            some (a.1 ++ b.1 ++ ['.', d1, d2])
          else none
        | _ => none))
  else none

/-- Leftmost-match scan: try the position matcher at every index, left to
right, threading the previous character (for `\b`). -/
def scanFrom (mAt : Option Char → List Char → Option (List Char)) :
    Option Char → List Char → Option (List Char)
  | prev, [] => mAt prev []
  | prev, c :: rest =>
    match mAt prev (c :: rest) with
    | some m => some m
    | none => scanFrom mAt (some c) rest

/-- `text.match(pattern)[0]` for a global regex: the leftmost match. -/
def firstMatch (mAt : Option Char → List Char → Option (List Char))
    (cs : List Char) : Option (List Char) :=
  scanFrom mAt none cs

/-- The `pricePatterns` array, in source priority order. -/
def pricePatterns : List (Option Char → List Char → Option (List Char)) :=
  [p1At, p2At, p3At, p4At]

def digitsToNat (cs : List Char) : Nat :=
  cs.foldl (fun acc c => acc * 10 + (c.toNat - '0'.toNat)) 0

/-- `parseFloat` on a digit-leading decimal string (the only shape the numeral
regex can produce): longest valid `digits[.digits]` head, as the exact
rational `(intpart * 10^k + fracpart) / 10^k`. -/
def jsParseDec (cs : List Char) : Option ℚ :=
  let intPart := cs.takeWhile isDig
  if intPart.isEmpty then none
  else
    match cs.dropWhile isDig with
    | '.' :: fracRest =>
      let frac := fracRest.takeWhile isDig
      some (mkRat (Int.ofNat (digitsToNat intPart * 10 ^ frac.length + digitsToNat frac))
        (10 ^ frac.length))
    | _ => some (mkRat (Int.ofNat (digitsToNat intPart)) 1)

/-- The separator normalization applied to a captured numeral: a comma with no
dot is a decimal comma, otherwise commas are thousands separators. -/
def normalizeNumStr (cs : List Char) : List Char :=
  if cs.contains ',' && !cs.contains '.' then
    cs.map (fun c => if c == ',' then '.' else c)
  else cs.filter (fun c => c != ',')

/-- From one full pattern match: re-extract the first numeral
(`matches[0].match(numeral)`), normalize separators, `parseFloat`, and apply
the acceptance guard `!isNaN(price) && price > 0 && price < 1000000`. -/
def priceOfMatch (m : List Char) : Option ℚ :=
  match firstMatch (fun _ cs => firstNumeralAt cs) m with
  | none => none
  | some numStr =>
    match jsParseDec (normalizeNumStr numStr) with
    | none => none
    | some q => if 0 < q ∧ q < 1000000 then some q else none

/-- One scan of the four patterns over a text: the first pattern whose
leftmost match passes the guard wins; a rejected match falls through to the
next pattern (the code inspects only `matches[0]` of each pattern). -/
def tryPricePatterns (cs : List Char) : Option ℚ :=
  pricePatterns.findSome? (fun pat => (firstMatch pat cs).bind priceOfMatch)

def startsWithChars : List Char → List Char → Bool
  | [], _ => true
  | _ :: _, [] => false
  | p :: ps, c :: cs => p == c && startsWithChars ps cs

def subIndexAux (pat : List Char) : List Char → Nat → Option Nat
  | [], i => if pat.isEmpty then some i else none
  | c :: rest, i =>
    if startsWithChars pat (c :: rest) then some i else subIndexAux pat rest (i + 1)

/-- `text.toLowerCase().indexOf(name.toLowerCase())`. -/
def ciIndexOf (hay pat : List Char) : Option Nat :=
  subIndexAux (lowerChars pat) (lowerChars hay) 0

/-- `extractPrice(text, productName)` of the PDF ingestion script: guard on a
falsy text, search a ±100-character window around the first case-insensitive
occurrence of the product name, and fall back to scanning the whole text.
(The escaped `namePattern` computed by the source is dead code and elided.) -/
def extractPrice (text productName : String) : Option ℚ :=
  if text = "" then none
  else
    let t := text.data
    match ciIndexOf t productName.data with
    | some i =>
      let contextStart := i - 100
      let contextEnd := min t.length (i + productName.length + 100)
      let ctx := (t.take contextEnd).drop contextStart
      match tryPricePatterns ctx with
      | some p => some p
      | none => tryPricePatterns t
    | none => tryPricePatterns t

-- ---------------- persistent store model ----------------

/-- One `source_refs` provenance entry.  The PDF pipeline fills `page`, the
URDF pipeline fills `filePath`/`componentType`; `none` models an absent BSON
field, so structural document equality is equality of all components. -/
structure SourceRef where
  source : String
  collection : String
  source_id : Nat
  page : Option Nat
  fileName : String
  filePath : Option String
  componentType : Option String
deriving DecidableEq, Repr

/-- Modelled from the spec: the four-field comparison
"same source+collection+source_id+fileName" that §4.5 claims governs
`source_refs` deduplication (to be compared against the code's whole-document
`$addToSet` equality). -/
def fourFieldEq (a b : SourceRef) : Bool :=
  a.source == b.source && a.collection == b.collection &&
    a.source_id == b.source_id && a.fileName == b.fileName

/-- The `raw` extraction-context payload of a product document. -/
inductive RawContext where
  | pdf (extractedText : String) (page : Nat) (fileName : String) (s3Key : String)
  | urdf (fileName : String) (filePath : String) (robotName : String)
      (componentType : Option String)
deriving DecidableEq, Repr

/-- A product document as built by either pipeline (`productDoc`). -/
structure ProductDoc where
  name : String
  brand : String
  product_type : Option String
  sub_type : Option String
  price : Option ℚ
  s3Key : Option String
  s3Link : Option String
  source_refs : List SourceRef
  raw : RawContext
  assets : List String
  norm : NormKey
  created_at : Nat
  updated_at : Nat
deriving DecidableEq, Repr

/-- A persisted product: a product document plus its Mongo `_id`. -/
structure ProductRecord extends ProductDoc where
  id : Nat
deriving DecidableEq, Repr

def docToRecord (d : ProductDoc) (i : Nat) : ProductRecord :=
  { toProductDoc := d, id := i }

/-- The `products` collection: documents in insertion order plus an id counter. -/
structure ProductsCol where
  docs : List ProductRecord
  nextId : Nat
deriving DecidableEq, Repr

def insertProductDoc (col : ProductsCol) (d : ProductDoc) : ProductsCol :=
  { docs := col.docs ++ [docToRecord d col.nextId], nextId := col.nextId + 1 }

/-- `normalizeProductData(productDoc)` as called inside `checkDuplicate`
(a product document has the same `name`/`brand`/`product_type` field reads). -/
def normalizeDoc (d : ProductDoc) : NormKey :=
  normalizeFields d.name d.brand d.product_type

/-- The dedup-key predicate of `checkDuplicate`'s `findOne` filter. -/
def keyMatch (k : NormKey) (p : ProductRecord) : Bool :=
  p.norm.name_norm == k.name_norm && p.norm.brand_norm == k.brand_norm

/-- `checkDuplicate(productCollection, product)`: re-normalize the document and
`findOne` on `_norm.name_norm` and `_norm.brand_norm`. -/
def checkDuplicate (col : ProductsCol) (d : ProductDoc) : Option ProductRecord :=
  col.docs.find? (keyMatch (normalizeDoc d))

/-- JS truthiness of an optional string (`null` and `""` are falsy). -/
def truthyOpt : Option String → Bool
  | some s => s != ""
  | none => false

/-- `$addToSet: { source_refs: { $each: newRefs } }`: append each new entry
that is not already present, by whole-document equality. -/
def addRefs (refs newRefs : List SourceRef) : List SourceRef :=
  newRefs.foldl (fun acc r => if r ∈ acc then acc else acc ++ [r]) refs

/-- The update document of `upsertProduct`'s duplicate branch: always refresh
`updated_at`; set `product_type`/`sub_type` only when truthy in the candidate
document, `price` only when non-null/undefined; `$addToSet` the source refs. -/
def mergeUpdate (existing : ProductRecord) (d : ProductDoc) (now : Nat) : ProductRecord :=
  { existing with
    updated_at := now
    product_type := if truthyOpt d.product_type then d.product_type else existing.product_type
    sub_type := if truthyOpt d.sub_type then d.sub_type else existing.sub_type
    price := match d.price with
      | some q => some q
      | none => existing.price
    source_refs := addRefs existing.source_refs d.source_refs }

inductive UpsertResult where
  | inserted (id : Nat)
  | updated (id : Nat)
  | unchanged (id : Nat)
deriving DecidableEq, Repr

/-- `upsertProduct` (URDF ingestion script): look up by normalized key; merge
into the existing record (reporting `updated` only if the server modified it)
or insert the document as a new record. -/
def upsertProduct (col : ProductsCol) (d : ProductDoc) (now : Nat) :
    ProductsCol × UpsertResult :=
  match checkDuplicate col d with
  | some existing =>
    let merged := mergeUpdate existing d now
    let docs := col.docs.map (fun p => if p.id = existing.id then merged else p)
    ({ col with docs := docs },
      if merged = existing then .unchanged existing.id else .updated existing.id)
  | none => (insertProductDoc col d, .inserted col.nextId)

/-- A per-source metadata document (`pdfExtracts` / `urdfExtracts`); the
payload fields (extracted text, page data, robot statistics) are elided —
the pipeline reads back only `fileName` existence. -/
structure IngestionRecord where
  id : Nat
  fileName : String
  matchedProductsCount : Nat
  createdAt : Nat
deriving DecidableEq, Repr

structure IngestCol where
  docs : List IngestionRecord
  nextId : Nat
deriving DecidableEq, Repr

structure Store where
  ingest : IngestCol
  products : ProductsCol
deriving DecidableEq, Repr

/-- `await collection.findOne({ fileName })` used as the idempotency guard. -/
def hasIngestion (st : Store) (name : String) : Bool :=
  st.ingest.docs.any (fun r => r.fileName == name)

-- ---------------- PDF ingestion pipeline ----------------

structure PageData where
  page : Nat
  text : String
deriving DecidableEq, Repr

/-- One S3 PDF source together with the behaviour of its external
collaborators: the Textract outcome (pages of text, or a thrown error), the
OpenAI candidate list, and acknowledgement oracles for the Mongo inserts. -/
structure PDFDoc where
  fileKey : String
  s3Link : String
  fetch : Except String (List PageData)
  candidates : List Candidate
  metaAck : Bool
  prodAck : Nat → Bool

/-- `fileKey.split("/").pop()`. -/
def splitOnChar (sep : Char) : List Char → List Char → List (List Char)
  | [], acc => [acc.reverse]
  | c :: rest, acc =>
    if c == sep then acc.reverse :: splitOnChar sep rest []
    else splitOnChar sep rest (c :: acc)

def fileNameOfKey (key : String) : String :=
  String.mk ((splitOnChar '/' key.data []).getLastD [])

/-- `x || null` on an optional string (`""` is falsy and becomes null). -/
def jsOrStr : Option String → Option String
  | some s => if s != "" then some s else none
  | none => none

/-- `x || null` on an optional number (`0` is falsy and becomes null). -/
def jsOrPrice : Option ℚ → Option ℚ
  | some q => if q != 0 then some q else none
  | none => none

/-- `pagesData.map(p => p.text).join("\n\n")`. -/
def joinTexts : List String → String
  | [] => ""
  | [t] => t
  | t :: rest => t ++ "\n\n" ++ joinTexts rest

/-- Per-document context threaded through the PDF candidate loop. -/
structure PDFCtx where
  pdfId : Nat
  fileName : String
  fileKey : String
  s3Link : String
  pagesData : List PageData
  combinedText : String
  now : Nat
  prodAck : Nat → Bool

/-- The product document built for one PDF candidate: page resolution
(`product.page || pagesData[0].page || 1`), page text with fallback to the
combined text, price from the model when non-null else `extractPrice`. -/
def mkPDFProductDoc (ctx : PDFCtx) (c : Candidate) : ProductDoc :=
  let productPage :=
    match c.page with
    | some p => if p != 0 then p else (match ctx.pagesData with | [] => 1 | pd :: _ => pd.page)
    | none => match ctx.pagesData with | [] => 1 | pd :: _ => pd.page
  let pageText :=
    match ctx.pagesData.find? (fun pd => pd.page == productPage) with
    | some pd => if pd.text != "" then pd.text else ctx.combinedText
    | none => ctx.combinedText
  let price :=
    match c.price with
    | some q => some q
    | none => extractPrice pageText c.name
  { name := c.name, brand := c.brand
    product_type := jsOrStr c.product_type
    sub_type := jsOrStr c.sub_type
    price := price
    s3Key := some ctx.fileKey, s3Link := some ctx.s3Link
    source_refs := [{ source := "pdf_extract", collection := "pdfExtracts",
                      source_id := ctx.pdfId, page := some productPage,
                      fileName := ctx.fileName, filePath := none, componentType := none }]
    raw := .pdf pageText productPage ctx.fileName ctx.fileKey
    assets := []
    norm := normalizeProductData c
    created_at := ctx.now, updated_at := ctx.now }

/-- The per-candidate loop of `processPDF`: validate mandatory fields, build
the document and `insertOne` it (no dedup lookup in this pipeline); every
per-candidate failure (validation or unacknowledged insert) is caught,
counted locally, and the loop continues.  Returns (collection, saved, failed). -/
def pdfLoop (ctx : PDFCtx) : ProductsCol → Nat → List Candidate → ProductsCol × Nat × Nat
  | col, _, [] => (col, 0, 0)
  | col, i, c :: rest =>
    if c.name = "" ∨ c.brand = "" then
      let r := pdfLoop ctx col (i + 1) rest
      (r.1, r.2.1, r.2.2 + 1)
    else if ctx.prodAck i then
      let r := pdfLoop ctx (insertProductDoc col (mkPDFProductDoc ctx c)) (i + 1) rest
      (r.1, r.2.1 + 1, r.2.2)
    else
      let r := pdfLoop ctx col (i + 1) rest
      (r.1, r.2.1, r.2.2 + 1)

inductive Outcome where
  | skipped
  | success
  | failed
deriving DecidableEq, Repr

/-- What one document contributes to the run: its settled outcome and the
per-document counters the processor logs. -/
structure DocReport where
  outcome : Outcome
  savedCount : Nat
  updatedCount : Nat
  failedCount : Nat
deriving DecidableEq, Repr

def skipReport : DocReport :=
  { outcome := .skipped, savedCount := 0, updatedCount := 0, failedCount := 0 }

def failReport : DocReport :=
  { outcome := .failed, savedCount := 0, updatedCount := 0, failedCount := 0 }

/-- `processPDF(fileKey, pdfCollection, productCollection)`: skip if an
ingestion record already exists for the derived file name; otherwise run the
text fetch (a thrown error settles the document as failed), insert the PDF
metadata document, and run the candidate loop.  The document settles
successfully even if every candidate fails. -/
def processPDF (st : Store) (d : PDFDoc) (now : Nat) : Store × DocReport :=
  let fileName := fileNameOfKey d.fileKey
  if hasIngestion st fileName then (st, skipReport)
  else
    match d.fetch with
    | .error _ => (st, failReport)
    | .ok pagesData =>
      let combinedText := joinTexts (pagesData.map (fun p => p.text))
      if d.metaAck then
        let pdfId := st.ingest.nextId
        let ingest' : IngestCol :=
          { docs := st.ingest.docs ++
              [{ id := pdfId, fileName := fileName,
                 matchedProductsCount := d.candidates.length, createdAt := now }],
            nextId := pdfId + 1 }
        let ctx : PDFCtx :=
          { pdfId := pdfId, fileName := fileName, fileKey := d.fileKey,
            s3Link := d.s3Link, pagesData := pagesData, combinedText := combinedText,
            now := now, prodAck := d.prodAck }
        let r := pdfLoop ctx st.products 0 d.candidates
        ({ ingest := ingest', products := r.1 },
         { outcome := .success, savedCount := r.2.1, updatedCount := 0,
           failedCount := r.2.2 })
      else (st, failReport)

/-- One batch run over PDF documents in file order (the linearization of the
`Promise.allSettled` fan-out): final store plus the per-document reports. -/
def runPDF (now : Nat) : Store → List PDFDoc → Store × List DocReport
  | st, [] => (st, [])
  | st, d :: rest =>
    let r := processPDF st d now
    let rr := runPDF now r.1 rest
    (rr.1, r.2 :: rr.2)

/-- `files.slice(i, i + BATCH_SIZE)` grouping with `BATCH_SIZE = 3`. -/
def chunk3 : List α → List (List α)
  | [] => []
  | a :: b :: c :: rest => [a, b, c] :: chunk3 rest
  | xs => [xs]

/-- `processInBatches` over PDF sources: process each group, then count the
fulfilled and rejected settlements into the run tally. -/
def processInBatchesPDF (st : Store) (files : List PDFDoc) (now : Nat) :
    Store × Nat × Nat :=
  (chunk3 files).foldl
    (fun acc batch =>
      let r := runPDF now acc.1 batch
      (r.1,
       acc.2.1 + r.2.countP (fun rep => decide (rep.outcome ≠ .failed)),
       acc.2.2 + r.2.countP (fun rep => decide (rep.outcome = .failed))))
    (st, 0, 0)

-- ---------------- URDF ingestion pipeline ----------------

/-- The parse/format result of one URDF file (payload fields beyond what the
product documents record are elided). -/
structure URDFParsed where
  robotName : String
  filePath : String
  formattedText : String
deriving DecidableEq, Repr

/-- One local URDF source with the behaviour of its collaborators: the parse
outcome (or thrown error) and the OpenAI candidate list. -/
structure URDFDoc where
  fileName : String
  parse : Except String URDFParsed
  candidates : List Candidate

structure URDFCtx where
  urdfId : Nat
  fileName : String
  info : URDFParsed
  now : Nat

/-- The product document built for one URDF candidate (`price` and the
optional strings go through `|| null`; no page, local file). -/
def mkURDFProductDoc (ctx : URDFCtx) (c : Candidate) : ProductDoc :=
  { name := c.name, brand := c.brand
    product_type := jsOrStr c.product_type
    sub_type := jsOrStr c.sub_type
    price := jsOrPrice c.price
    s3Key := none, s3Link := none
    source_refs := [{ source := "urdf_extract", collection := "urdfExtracts",
                      source_id := ctx.urdfId, page := none, fileName := ctx.fileName,
                      filePath := some ctx.info.filePath,
                      componentType := jsOrStr c.component_type }]
    raw := .urdf ctx.fileName ctx.info.filePath ctx.info.robotName (jsOrStr c.component_type)
    assets := []
    norm := normalizeProductData c
    created_at := ctx.now, updated_at := ctx.now }

/-- The per-candidate loop of `processURDF`: validate, then `upsertProduct`
(insert counted as saved, modifying update as updated, no-op update as
neither); per-candidate failures are caught and counted locally.
Returns (collection, saved, updated, failed). -/
def urdfLoop (ctx : URDFCtx) : ProductsCol → List Candidate → ProductsCol × Nat × Nat × Nat
  | col, [] => (col, 0, 0, 0)
  | col, c :: rest =>
    if c.name = "" ∨ c.brand = "" then
      let r := urdfLoop ctx col rest
      (r.1, r.2.1, r.2.2.1, r.2.2.2 + 1)
    else
      let u := upsertProduct col (mkURDFProductDoc ctx c) ctx.now
      let r := urdfLoop ctx u.1 rest
      match u.2 with
      | .inserted _ => (r.1, r.2.1 + 1, r.2.2.1, r.2.2.2)
      | .updated _ => (r.1, r.2.1, r.2.2.1 + 1, r.2.2.2)
      | .unchanged _ => (r.1, r.2.1, r.2.2.1, r.2.2.2)

/-- `processURDF(filePath, urdfCollection, productCollection)`: same skeleton
as `processPDF`, but candidates are merged through `upsertProduct`. -/
def processURDF (st : Store) (d : URDFDoc) (now : Nat) : Store × DocReport :=
  if hasIngestion st d.fileName then (st, skipReport)
  else
    match d.parse with
    | .error _ => (st, failReport)
    | .ok info =>
      let urdfId := st.ingest.nextId
      let ingest' : IngestCol :=
        { docs := st.ingest.docs ++
            [{ id := urdfId, fileName := d.fileName,
               matchedProductsCount := d.candidates.length, createdAt := now }],
          nextId := urdfId + 1 }
      let ctx : URDFCtx := { urdfId := urdfId, fileName := d.fileName, info := info, now := now }
      let r := urdfLoop ctx st.products d.candidates
      ({ ingest := ingest', products := r.1 },
       { outcome := .success, savedCount := r.2.1, updatedCount := r.2.2.1,
         failedCount := r.2.2.2 })

def runURDF (now : Nat) : Store → List URDFDoc → Store × List DocReport
  | st, [] => (st, [])
  | st, d :: rest =>
    let r := processURDF st d now
    let rr := runURDF now r.1 rest
    (rr.1, r.2 :: rr.2)

def processInBatchesURDF (st : Store) (files : List URDFDoc) (now : Nat) :
    Store × Nat × Nat :=
  (chunk3 files).foldl
    (fun acc batch =>
      let r := runURDF now acc.1 batch
      (r.1,
       acc.2.1 + r.2.countP (fun rep => decide (rep.outcome ≠ .failed)),
       acc.2.2 + r.2.countP (fun rep => decide (rep.outcome = .failed))))
    (st, 0, 0)

-- ---------------- matcher retry model ----------------

/-- One reasoning-service call outcome: a parsed candidate list, or an error
carrying an HTTP status and the optional `retry-after` header (seconds). -/
inductive ApiResult where
  | ok (products : List Candidate)
  | err (status : Nat) (retryAfter : Option Nat)

/-- Observable behaviour of one `matchProductsWithOpenAI` invocation: the
returned candidate list, the number of service calls made, and the sleeps
performed (seconds, in order). -/
structure MatchTrace where
  result : List Candidate
  attempts : Nat
  sleeps : List Nat
deriving DecidableEq, Repr

def MAX_RETRIES : Nat := 3

/-- The recursive body of `matchProductsWithOpenAI` /
`matchURDFProductsWithOpenAI` (they are identical): the service is called; on
429 sleep `retry-after || 60` seconds and recurse while `retryCount <
MAX_RETRIES`; on 500/503 sleep 10 seconds and recurse under the same cap; any
other error returns the empty list at once.  `service n` is the outcome of
the call made with `retryCount = n`. -/
def matchGo (service : Nat → ApiResult) (rc : Nat) : MatchTrace :=
  match service rc with
  | .ok ps => { result := ps, attempts := 1, sleeps := [] }
  | .err status ra =>
    if status = 429 then
      let retryAfter := ra.getD 60
      if rc < MAX_RETRIES then
        let t := matchGo service (rc + 1)
        { result := t.result, attempts := t.attempts + 1, sleeps := retryAfter :: t.sleeps }
      else { result := [], attempts := 1, sleeps := [retryAfter] }
    else if status = 500 ∨ status = 503 then
      if rc < MAX_RETRIES then
        let t := matchGo service (rc + 1)
        { result := t.result, attempts := t.attempts + 1, sleeps := 10 :: t.sleeps }
      else { result := [], attempts := 1, sleeps := [10] }
    else { result := [], attempts := 1, sleeps := [] }
termination_by MAX_RETRIES + 1 - rc
decreasing_by all_goals omega

/-- `matchProductsWithOpenAI(extractedText, manifest)`: empty or
whitespace-only text short-circuits to the empty list without calling the
service; otherwise the retry recursion starts at `retryCount = 0`. -/
def matchProductsWithOpenAI (service : Nat → ApiResult) (extractedText : String) :
    MatchTrace :=
  if (jsTrim extractedText).length = 0 then { result := [], attempts := 0, sleeps := [] }
  else matchGo service 0

-- ---------------- concrete example data ----------------

def emptyStore : Store :=
  { ingest := { docs := [], nextId := 1 }, products := { docs := [], nextId := 1 } }

def cexCandA : Candidate := { name := "Robo Arm", brand := "ABB" }

def cexCandB : Candidate := { name := "robo arm", brand := "abb" }

def cexPDFA : PDFDoc :=
  { fileKey := "uploads/a.pdf", s3Link := "https://s3/a.pdf",
    fetch := .ok [{ page := 1, text := "x" }], candidates := [cexCandA],
    metaAck := true, prodAck := fun _ => true }

def cexPDFB : PDFDoc :=
  { fileKey := "uploads/b.pdf", s3Link := "https://s3/b.pdf",
    fetch := .ok [{ page := 1, text := "x" }], candidates := [cexCandB],
    metaAck := true, prodAck := fun _ => true }

def cexURDFA : URDFDoc :=
  { fileName := "a.urdf",
    parse := .ok { robotName := "arm", filePath := "/u/a.urdf", formattedText := "t" },
    candidates := [cexCandA] }

def cexURDFB : URDFDoc :=
  { fileName := "b.urdf",
    parse := .ok { robotName := "arm", filePath := "/u/b.urdf", formattedText := "t" },
    candidates := [cexCandB] }

def cexRefA : SourceRef :=
  { source := "urdf_extract", collection := "urdfExtracts", source_id := 7,
    page := none, fileName := "arm.urdf", filePath := some "/u/arm.urdf",
    componentType := some "robot" }

def cexRefB : SourceRef := { cexRefA with componentType := some "joint" }

def cexExisting : ProductRecord :=
  { id := 3, name := "Robo Arm", brand := "ABB", product_type := some "Robot",
    sub_type := none, price := some (99.5 : ℚ), s3Key := none, s3Link := none,
    source_refs := [cexRefA],
    raw := .urdf "arm.urdf" "/u/arm.urdf" "arm" (some "robot"), assets := [],
    norm := normalizeProductData cexCandA, created_at := 1, updated_at := 1 }

/-- A later candidate document for the same key supplying `price: null` and a
provenance entry that agrees with `cexRefA` on the four spec fields but not on
`componentType`. -/
def cexMergeDoc : ProductDoc :=
  { name := "Robo Arm", brand := "ABB", product_type := none, sub_type := none,
    price := none, s3Key := none, s3Link := none, source_refs := [cexRefB],
    raw := .urdf "arm.urdf" "/u/arm.urdf" "arm" (some "joint"), assets := [],
    norm := normalizeProductData cexCandA, created_at := 5, updated_at := 5 }

def always429 : Nat → ApiResult := fun _ => .err 429 none

/-- A PDF document whose candidates all fail: the first fails mandatory-field
validation, the second's product insert is never acknowledged. -/
def cexPDFfail : PDFDoc :=
  { fileKey := "uploads/c.pdf", s3Link := "https://s3/c.pdf", fetch := .ok [],
    candidates := [{ name := "", brand := "ABB" }, { name := "X1", brand := "B" }],
    metaAck := true, prodAck := fun _ => false }

/-- A store that already holds ingestion records for `a.pdf` and `a.urdf`. -/
def c4Store : Store :=
  { ingest := { docs := [{ id := 1, fileName := "a.pdf", matchedProductsCount := 0,
                           createdAt := 0 },
                         { id := 2, fileName := "a.urdf", matchedProductsCount := 0,
                           createdAt := 0 }], nextId := 3 },
    products := { docs := [], nextId := 1 } }

/-- A PDF document that throws during text fetch. -/
def cexPDFbad : PDFDoc :=
  { fileKey := "uploads/bad.pdf", s3Link := "https://s3/bad.pdf",
    fetch := .error "Textract failed", candidates := [], metaAck := true,
    prodAck := fun _ => true }

-- ---------------- helper lemmas ----------------

theorem exceptBind_ok (a : α) (f : α → Except ε β) :
    ((Except.ok a : Except ε α) >>= f) = f a := rfl

theorem findSomeMem {l : List α} {f : α → Option β} {b : β}
    (h : l.findSome? f = some b) : ∃ a ∈ l, f a = some b := by
  induction l with
  | nil => simp [List.findSome?] at h
  | cons x xs ih =>
    rw [List.findSome?_cons] at h
    cases hfx : f x with
    | some b' =>
      rw [hfx] at h
      simp at h
      exact ⟨x, by simp, by rw [hfx, h]⟩
    | none =>
      rw [hfx] at h
      simp at h
      obtain ⟨a, ha, hfa⟩ := ih h
      exact ⟨a, by simp [ha], hfa⟩

-- ---------------- C2: merge never nulls out data ----------------

/-- C2: field-level merge semantics of `upsertProduct`'s update branch:
`product_type`, `sub_type` and `price` are taken from the candidate document
only when it supplies a non-null (for the two strings: truthy) value, existing
values are preserved otherwise, and a non-null stored value is never
overwritten with null.  In particular an existing price (e.g. `99.5`) survives
a candidate with `price: null` unchanged. -/
theorem spec_C2 (existing : ProductRecord) (d : ProductDoc) (now : Nat) :
    (d.price = none → (mergeUpdate existing d now).price = existing.price)
    ∧ (d.product_type = none → (mergeUpdate existing d now).product_type = existing.product_type)
    ∧ (d.sub_type = none → (mergeUpdate existing d now).sub_type = existing.sub_type)
    ∧ ((mergeUpdate existing d now).price ≠ existing.price →
        d.price = (mergeUpdate existing d now).price ∧ d.price ≠ none)
    ∧ ((mergeUpdate existing d now).product_type ≠ existing.product_type →
        d.product_type = (mergeUpdate existing d now).product_type ∧ d.product_type ≠ none)
    ∧ ((mergeUpdate existing d now).sub_type ≠ existing.sub_type →
        d.sub_type = (mergeUpdate existing d now).sub_type ∧ d.sub_type ≠ none)
    ∧ (existing.price ≠ none → (mergeUpdate existing d now).price ≠ none)
    ∧ (existing.product_type ≠ none → (mergeUpdate existing d now).product_type ≠ none)
    ∧ (existing.sub_type ≠ none → (mergeUpdate existing d now).sub_type ≠ none) := by
  refine ⟨?_, ?_, ?_, ?_, ?_, ?_, ?_, ?_, ?_⟩
  · intro h; simp [mergeUpdate, h]
  · intro h; simp [mergeUpdate, h, truthyOpt]
  · intro h; simp [mergeUpdate, h, truthyOpt]
  · intro h
    cases hd : d.price with
    | none => exact absurd (by simp [mergeUpdate, hd]) h
    | some q => simp [mergeUpdate, hd]
  · intro h
    cases hd : d.product_type with
    | none => exact absurd (by simp [mergeUpdate, hd, truthyOpt]) h
    | some s =>
      by_cases hs : s = ""
      · exact absurd (by simp [mergeUpdate, hd, truthyOpt, hs]) h
      · simp [mergeUpdate, hd, truthyOpt, hs]
  · intro h
    cases hd : d.sub_type with
    | none => exact absurd (by simp [mergeUpdate, hd, truthyOpt]) h
    | some s =>
      by_cases hs : s = ""
      · exact absurd (by simp [mergeUpdate, hd, truthyOpt, hs]) h
      · simp [mergeUpdate, hd, truthyOpt, hs]
  · intro h
    cases hd : d.price with
    | none => simpa [mergeUpdate, hd] using h
    | some q => simp [mergeUpdate, hd]
  · intro h
    cases hd : d.product_type with
    | none => simpa [mergeUpdate, hd, truthyOpt] using h
    | some s =>
      by_cases hs : s = ""
      · simpa [mergeUpdate, hd, truthyOpt, hs] using h
      · simp [mergeUpdate, hd, truthyOpt, hs]
  · intro h
    cases hd : d.sub_type with
    | none => simpa [mergeUpdate, hd, truthyOpt] using h
    | some s =>
      by_cases hs : s = ""
      · simpa [mergeUpdate, hd, truthyOpt, hs] using h
      · simp [mergeUpdate, hd, truthyOpt, hs]

/-- C2 witness: a stored price of `99.5` merged with a candidate supplying
`price: null` is still `99.5`. -/
theorem spec_C2_witness :
    cexMergeDoc.price = none ∧ (mergeUpdate cexExisting cexMergeDoc 9).price = some (99.5 : ℚ) :=
  ⟨rfl, ((spec_C2 cexExisting cexMergeDoc 9).1 rfl).trans rfl⟩

-- ---------------- C6: provenance dedup on merge ----------------

/-- C6 counterexample: `$addToSet` compares whole provenance documents, not
the four spec fields.  Here the incoming entry agrees with the stored one on
source, collection, source_id and fileName (`fourFieldEq` is true) yet it is
still appended, because `componentType` differs — so the claim "appended only
if no existing entry is structurally equal under the four-field comparison"
is false on the code. -/
theorem spec_C6_counterexample :
    fourFieldEq cexRefA cexRefB = true ∧ cexRefA ≠ cexRefB ∧
      (mergeUpdate cexExisting cexMergeDoc 5).source_refs = [cexRefA, cexRefB] := by
  decide

/-- C6 (amended): on every merge, the provenance entry is appended to
`source_refs` if and only if no existing entry is equal to it as a whole
document (all fields, including `filePath` and `componentType`), and
`updated_at` is always refreshed to the merge time. -/
theorem spec_C6 (existing : ProductRecord) (d : ProductDoc) (now : Nat) (r : SourceRef)
    (h : d.source_refs = [r]) :
    (mergeUpdate existing d now).updated_at = now
    ∧ (mergeUpdate existing d now).source_refs =
        (if r ∈ existing.source_refs then existing.source_refs
         else existing.source_refs ++ [r])
    ∧ r ∈ (mergeUpdate existing d now).source_refs
    ∧ (∀ x, x ∈ (mergeUpdate existing d now).source_refs ↔
        x ∈ existing.source_refs ∨ x = r) := by
  have hrefs : (mergeUpdate existing d now).source_refs =
      (if r ∈ existing.source_refs then existing.source_refs
       else existing.source_refs ++ [r]) := by
    simp [mergeUpdate, addRefs, h]
  refine ⟨by simp [mergeUpdate], hrefs, ?_, ?_⟩
  · rw [hrefs]
    by_cases hr : r ∈ existing.source_refs
    · rw [if_pos hr]; exact hr
    · simp [hr]
  · intro x
    rw [hrefs]
    by_cases hr : r ∈ existing.source_refs
    · simp only [if_pos hr]
      constructor
      · exact fun hx => Or.inl hx
      · rintro (hx | rfl)
        · exact hx
        · exact hr
    · simp [if_neg hr, List.mem_append]

/-- C6 witness: a genuinely new provenance entry is appended and `updated_at`
is refreshed. -/
theorem spec_C6_witness :
    (mergeUpdate cexExisting cexMergeDoc 5).updated_at = 5
    ∧ (mergeUpdate cexExisting cexMergeDoc 5).source_refs =
        (if cexRefB ∈ cexExisting.source_refs then cexExisting.source_refs
         else cexExisting.source_refs ++ [cexRefB]) :=
  ⟨(spec_C6 cexExisting cexMergeDoc 5 cexRefB rfl).1,
   (spec_C6 cexExisting cexMergeDoc 5 cexRefB rfl).2.1⟩

-- ---------------- C3: retry exhaustion on HTTP 429 ----------------

theorem matchGo_allRateLimited (service : Nat → ApiResult) (ra : Nat → Option Nat)
    (hsvc : ∀ n, service n = .err 429 (ra n)) :
    matchGo service 0 =
      { result := [], attempts := 4,
        sleeps := [(ra 0).getD 60, (ra 1).getD 60, (ra 2).getD 60, (ra 3).getD 60] } := by
  have h3 : matchGo service 3 =
      { result := [], attempts := 1, sleeps := [(ra 3).getD 60] } := by
    rw [matchGo, hsvc 3]; simp [MAX_RETRIES]
  have h2 : matchGo service 2 =
      { result := [], attempts := 2, sleeps := [(ra 2).getD 60, (ra 3).getD 60] } := by
    rw [matchGo, hsvc 2]; simp [MAX_RETRIES, h3]
  have h1 : matchGo service 1 =
      { result := [], attempts := 3,
        sleeps := [(ra 1).getD 60, (ra 2).getD 60, (ra 3).getD 60] } := by
    rw [matchGo, hsvc 1]; simp [MAX_RETRIES, h2]
  rw [matchGo, hsvc 0]; simp [MAX_RETRIES, h1]

/-- C3 counterexample: with a service that answers HTTP 429 (no retry-after
header) on every call and a non-empty document text, the matcher makes 4
service calls in total (the initial attempt plus 3 retries), not at most 3,
sleeping 60 seconds after each of the four 429s; it does return the empty
list without throwing. -/
theorem spec_C3_counterexample :
    matchProductsWithOpenAI always429 "x" =
      { result := [], attempts := 4, sleeps := [60, 60, 60, 60] } := by
  have h := matchGo_allRateLimited always429 (fun _ => none) (fun _ => rfl)
  unfold matchProductsWithOpenAI
  rw [if_neg (by decide)]
  exact h

/-- C3 (amended): if every reasoning-service call fails with HTTP 429, the
matcher sleeps the service-advised duration (`retry-after`, default 60
seconds) after each failed attempt, makes exactly 4 attempts in total (the
initial call plus `MAX_RETRIES = 3` retries), and then returns the empty
candidate list instead of throwing. -/
theorem spec_C3 (service : Nat → ApiResult) (ra : Nat → Option Nat) (text : String)
    (htext : (jsTrim text).length ≠ 0)
    (hsvc : ∀ n, service n = .err 429 (ra n)) :
    matchProductsWithOpenAI service text =
      { result := [], attempts := 4,
        sleeps := [(ra 0).getD 60, (ra 1).getD 60, (ra 2).getD 60, (ra 3).getD 60] } := by
  unfold matchProductsWithOpenAI
  rw [if_neg htext]
  exact matchGo_allRateLimited service ra hsvc

/-- C3 witness: the amended statement at a concrete always-429 service with a
service-advised 30-second retry duration. -/
theorem spec_C3_witness :
    matchProductsWithOpenAI (fun _ => .err 429 (some 30)) "robot arm" =
      { result := [], attempts := 4, sleeps := [30, 30, 30, 30] } :=
  spec_C3 (fun _ => .err 429 (some 30)) (fun _ => some 30) "robot arm"
    (by decide) (fun _ => rfl)


-- ---------------- C7: price extraction ----------------

/-- Zeta-reduced unfolding of `extractPrice` (for rewriting under the lets). -/
theorem extractPrice_eq (text productName : String) :
    extractPrice text productName =
      (if text = "" then none
       else
         match ciIndexOf text.data productName.data with
         | some i =>
           (match tryPricePatterns
               ((text.data.take (min text.data.length (i + productName.length + 100))).drop
                 (i - 100)) with
            | some p => some p
            | none => tryPricePatterns text.data)
         | none => tryPricePatterns text.data) := rfl

theorem priceOfMatch_range {m : List Char} {p : ℚ} (h : priceOfMatch m = some p) :
    0 < p ∧ p < 1000000 := by
  unfold priceOfMatch at h
  split at h
  · simp at h
  · split at h
    · simp at h
    · split at h
      · rename_i hq
        injection h with h'
        subst h'
        exact hq
      · simp at h

theorem tryPrice_range {cs : List Char} {p : ℚ} (h : tryPricePatterns cs = some p) :
    0 < p ∧ p < 1000000 := by
  unfold tryPricePatterns at h
  obtain ⟨pat, _, hp⟩ := findSomeMem h
  cases hm : firstMatch pat cs with
  | none => rw [hm] at hp; simp at hp
  | some m =>
    rw [hm] at hp
    exact priceOfMatch_range hp

/-- C7: `extractPrice` never returns a value outside the accepted range
`(0, 1000000)` for any text and product name (a candidate numeral parsing to a
non-finite, non-positive or too-large value is rejected); on the spec's window
example it returns `1234.56`; texts whose only price-like matches are `$0.00`
or `$2,000,000.00` yield `null`; and a rejected first match falls through to
the later patterns, which can still produce an accepted price from the same
text (here `$0.00` is rejected and the keyword pattern then yields `45.5`). -/
theorem spec_C7 :
    (∀ (text productName : String) (p : ℚ),
        extractPrice text productName = some p → 0 < p ∧ p < 1000000)
    ∧ extractPrice "Robo Arm Model X Price: $1,234.56 more text" "Robo Arm Model X" =
        some (1234.56 : ℚ)
    ∧ extractPrice "Total $0.00 due" "Widget" = none
    ∧ extractPrice "Item $2,000,000.00 only" "Widget" = none
    ∧ extractPrice "gadget costs $0.00 but price: 45.50 today" "gadget" =
        some (45.5 : ℚ) := by
  refine ⟨?_, ?_, by decide, by decide, ?_⟩
  · intro text productName p h
    rw [extractPrice_eq] at h
    split at h
    · simp at h
    · split at h
      · split at h
        · rename_i heq
          injection h with h'
          subst h'
          exact tryPrice_range heq
        · exact tryPrice_range h
      · exact tryPrice_range h
  · have h : extractPrice "Robo Arm Model X Price: $1,234.56 more text" "Robo Arm Model X"
        = some (mkRat 30864 25) := by decide
    rw [h]
    norm_num [Rat.mkRat_eq_div]
  · have h : extractPrice "gadget costs $0.00 but price: 45.50 today" "gadget"
        = some (mkRat 91 2) := by decide
    rw [h]
    norm_num [Rat.mkRat_eq_div]

/-- C7 witness: the range bound applied at the concrete fall-through example,
whose extracted price is `45.5`. -/
theorem spec_C7_witness : (0 : ℚ) < 45.5 ∧ (45.5 : ℚ) < 1000000 :=
  spec_C7.1 "gadget costs $0.00 but price: 45.50 today" "gadget" (45.5 : ℚ)
    spec_C7.2.2.2.2


-- ---------------- C8: totality of the normalizer ----------------

/-- C8 counterexample: the normalizer is not total on arbitrary non-null
candidates — a candidate whose `name` is the (truthy, non-string) number `42`
makes `(product.name || "").toLowerCase()` throw a TypeError. -/
theorem spec_C8_counterexample :
    normalizeJS (.num 42) (.str "abb") .null =
      .error "TypeError: toLowerCase is not a function" := rfl

theorem lowerOrOk {v : JSVal} (h : strOrFalsy v = true) :
    ∃ s, jsToLowerVal (jsOr v (.str "")) = .ok s := by
  cases v with
  | null => exact ⟨"", rfl⟩
  | undef => exact ⟨"", rfl⟩
  | bool b =>
    cases b with
    | false => exact ⟨"", rfl⟩
    | true => simp [strOrFalsy, truthy] at h
  | num q =>
    have hq : q = 0 := by
      by_contra hne
      simp [strOrFalsy, truthy, hne] at h
    subst hq
    exact ⟨"", rfl⟩
  | str s =>
    by_cases hs : s = ""
    · subst hs; exact ⟨"", rfl⟩
    · exact ⟨jsToLower s, by simp [jsOr, truthy, hs, jsToLowerVal]⟩
  | obj => simp [strOrFalsy, truthy] at h

/-- C8 (amended): the normalizer returns a `NormalizedKey` without failing for
every candidate whose `name`, `brand` and `product_type` fields are each a
string or a falsy value; it throws a TypeError when one of them is a truthy
non-string (e.g. a number), so it is not total on arbitrary non-null
candidates. -/
theorem spec_C8 (name brand pt : JSVal) (h1 : strOrFalsy name = true)
    (h2 : strOrFalsy brand = true) (h3 : strOrFalsy pt = true) :
    (normalizeJS name brand pt).isOk = true := by
  obtain ⟨bs, hb⟩ := lowerOrOk h2
  obtain ⟨ns, hn⟩ := lowerOrOk h1
  by_cases hnn : jsTrim ns = ""
  · simp [normalizeJS, hb, hn, hnn, exceptBind_ok, Except.isOk, Except.toBool]
  · by_cases hpt : truthy pt = true
    · have hps : ∃ s, jsToLowerVal pt = .ok s := by
        cases pt with
        | str s => exact ⟨_, rfl⟩
        | null => simp [truthy] at hpt
        | undef => simp [truthy] at hpt
        | bool b => cases b <;> simp_all [strOrFalsy, truthy]
        | num q =>
          have hq : q = 0 := by
            by_contra hne
            simp [strOrFalsy, truthy, hne] at h3
          subst hq
          simp [truthy] at hpt
        | obj => simp [strOrFalsy, truthy] at h3
      obtain ⟨ps, hps⟩ := hps
      simp [normalizeJS, hb, hn, hps, hnn, hpt, exceptBind_ok, Except.isOk, Except.toBool]
    · have hptf : truthy pt = false := by simpa using hpt
      simp [normalizeJS, hb, hn, hnn, hptf, exceptBind_ok, Except.isOk, Except.toBool]

/-- C8 witness: a candidate with a whitespace-padded string name, null brand
and a falsy numeric product type normalizes without failing. -/
theorem spec_C8_witness :
    (normalizeJS (.str " Robo Arm ") .null (.num 0)).isOk = true :=
  spec_C8 (.str " Robo Arm ") .null (.num 0) rfl rfl (by decide)

-- ---------------- C9: whitespace-only names ----------------

theorem toLower_of_space {c : Char} (h : jsIsSpace c = true) : c.toLower = c := by
  unfold jsIsSpace at h
  simp only [Bool.or_eq_true, beq_iff_eq] at h
  rcases h with ((((((((h|h)|h)|h)|h)|h)|h)|h)|h)|h <;> subst h <;> decide

theorem lowerChars_of_space {cs : List Char} (h : ∀ c ∈ cs, jsIsSpace c = true) :
    lowerChars cs = cs := by
  unfold lowerChars
  induction cs with
  | nil => rfl
  | cons c rest ih =>
    simp only [List.map_cons]
    rw [toLower_of_space (h c (by simp)), ih (fun x hx => h x (by simp [hx]))]

theorem trimChars_of_space {cs : List Char} (h : ∀ c ∈ cs, jsIsSpace c = true) :
    trimChars cs = [] := by
  unfold trimChars
  have h1 : cs.dropWhile jsIsSpace = [] := by
    rw [List.dropWhile_eq_nil_iff]
    exact h
  rw [h1]
  rfl

theorem jsTrim_lower_of_space {s : String} (h : ∀ c ∈ s.data, jsIsSpace c = true) :
    jsTrim (jsToLower s) = "" := by
  unfold jsTrim jsToLower
  show String.mk (trimChars (lowerChars s.data)) = ""
  rw [lowerChars_of_space h, trimChars_of_space h]

/-- Zeta-reduced unfolding of `normalizeFields` (for rewriting under the lets). -/
theorem normalizeFields_eq (name brand : String) (pt : Option String) :
    normalizeFields name brand pt =
      { brand_norm := jsTrim (jsToLower brand)
        name_norm := jsTrim (jsToLower name)
        name_tokens := (splitRuns isNameSep (jsTrim (jsToLower name))).filter
          (fun t => t.length != 0)
        aliases := dedupFirst
          (if jsTrim (jsToLower name) != "" then
            [jsTrim (jsToLower name), stripWs (jsTrim (jsToLower name)),
             collapseWs (jsTrim (jsToLower name)) '-',
             collapseWs (jsTrim (jsToLower name)) '_'] ++
              (match pt with
               | some p => if p != "" then [jsTrim (jsToLower name) ++ " " ++ jsToLower p]
                           else []
               | none => [])
          else []) } := rfl

theorem normalizeFields_ws (name brand : String) (pt : Option String)
    (hws : ∀ c ∈ name.data, jsIsSpace c = true) :
    normalizeFields name brand pt = ⟨jsTrim (jsToLower brand), "", [], []⟩ := by
  rw [normalizeFields_eq, jsTrim_lower_of_space hws]
  rfl

/-- C9: a candidate whose name is a non-empty all-whitespace string passes the
mandatory-field validation (which rejects only falsy name/brand), yet
normalizes to `name_norm = ""` with no tokens and an empty alias list (so
`aliases` does not contain `name_norm`), and every such candidate with the
same brand collapses onto the single dedup key `(brand_norm, "")` — the
normalized keys are fully equal whatever the whitespace name or product type. -/
theorem spec_C9 (name brand : String) (pt sub : Option String) (pr : Option ℚ)
    (pg : Option Nat) (ct : Option String)
    (hname : name ≠ "") (hws : ∀ c ∈ name.data, jsIsSpace c = true)
    (hbrand : brand ≠ "") :
    (¬((⟨name, brand, pt, sub, pr, pg, ct⟩ : Candidate).name = ""
        ∨ (⟨name, brand, pt, sub, pr, pg, ct⟩ : Candidate).brand = ""))
    ∧ (normalizeProductData ⟨name, brand, pt, sub, pr, pg, ct⟩).name_norm = ""
    ∧ (normalizeProductData ⟨name, brand, pt, sub, pr, pg, ct⟩).name_tokens = []
    ∧ (normalizeProductData ⟨name, brand, pt, sub, pr, pg, ct⟩).aliases = []
    ∧ (normalizeProductData ⟨name, brand, pt, sub, pr, pg, ct⟩).name_norm ∉
        (normalizeProductData ⟨name, brand, pt, sub, pr, pg, ct⟩).aliases
    ∧ (∀ (name2 : String) (pt2 : Option String), name2 ≠ "" →
        (∀ c ∈ name2.data, jsIsSpace c = true) →
        normalizeProductData ⟨name2, brand, pt2, sub, pr, pg, ct⟩ =
          normalizeProductData ⟨name, brand, pt, sub, pr, pg, ct⟩) := by
  have hkey : normalizeProductData ⟨name, brand, pt, sub, pr, pg, ct⟩ =
      ⟨jsTrim (jsToLower brand), "", [], []⟩ := normalizeFields_ws name brand pt hws
  refine ⟨fun hor => hor.elim hname hbrand, ?_, ?_, ?_, ?_, ?_⟩
  · rw [hkey]
  · rw [hkey]
  · rw [hkey]
  · rw [hkey]; simp
  · intro name2 pt2 _ hws2
    rw [hkey]
    exact normalizeFields_ws name2 brand pt2 hws2

/-- C9 witness: the two-space name with brand `"ABB"` is accepted by
validation and collapses onto the key `("abb", "")` with empty tokens and
aliases. -/
theorem spec_C9_witness :
    (¬((⟨"  ", "ABB", none, none, none, none, none⟩ : Candidate).name = ""
        ∨ (⟨"  ", "ABB", none, none, none, none, none⟩ : Candidate).brand = ""))
    ∧ (normalizeProductData ⟨"  ", "ABB", none, none, none, none, none⟩).name_norm = ""
    ∧ (normalizeProductData ⟨"  ", "ABB", none, none, none, none, none⟩).aliases = [] :=
  have h := spec_C9 "  " "ABB" none none none none none (by decide)
    (by decide) (by decide)
  ⟨h.1, h.2.1, h.2.2.2.1⟩

-- ---------------- batch-run lemmas (PDF pipeline) ----------------

theorem runPDF_nil (now : Nat) (st : Store) : runPDF now st [] = (st, []) := rfl

theorem runPDF_cons (now : Nat) (st : Store) (d : PDFDoc) (rest : List PDFDoc) :
    runPDF now st (d :: rest) =
      ((runPDF now (processPDF st d now).1 rest).1,
        (processPDF st d now).2 :: (runPDF now (processPDF st d now).1 rest).2) := rfl

theorem runPDF_append (now : Nat) (xs ys : List PDFDoc) : ∀ st : Store,
    runPDF now st (xs ++ ys) =
      ((runPDF now (runPDF now st xs).1 ys).1,
        (runPDF now st xs).2 ++ (runPDF now (runPDF now st xs).1 ys).2) := by
  induction xs with
  | nil => intro st; simp [runPDF_nil, runPDF_cons]
  | cons d rest ih =>
    intro st
    rw [List.cons_append, runPDF_cons, ih, runPDF_cons]
    simp

theorem processPDF_skip (st : Store) (d : PDFDoc) (now : Nat)
    (h : hasIngestion st (fileNameOfKey d.fileKey) = true) :
    processPDF st d now = (st, skipReport) := by
  simp only [processPDF, h]
  rfl

theorem processPDF_ingest_suffix (st : Store) (d : PDFDoc) (now : Nat) :
    ∃ l, (processPDF st d now).1.ingest.docs = st.ingest.docs ++ l := by
  by_cases h : hasIngestion st (fileNameOfKey d.fileKey) = true
  · rw [processPDF_skip st d now h]
    exact ⟨[], by simp⟩
  · simp only [processPDF, h]
    cases hf : d.fetch with
    | error e => exact ⟨[], by simp⟩
    | ok pages =>
      by_cases ha : d.metaAck
      · simp only [ha, if_true, if_false]
        exact ⟨_, rfl⟩
      · simp only [ha, if_false]
        exact ⟨[], by simp⟩

theorem processPDF_has_mono (st : Store) (d : PDFDoc) (now : Nat) (n : String)
    (h : hasIngestion st n = true) : hasIngestion (processPDF st d now).1 n = true := by
  obtain ⟨l, hl⟩ := processPDF_ingest_suffix st d now
  unfold hasIngestion at h ⊢
  rw [hl, List.any_append, h]
  rfl

theorem runPDF_has_mono (now : Nat) (ds : List PDFDoc) : ∀ (st : Store) (n : String),
    hasIngestion st n = true → hasIngestion (runPDF now st ds).1 n = true := by
  induction ds with
  | nil => intro st n h; exact h
  | cons d rest ih =>
    intro st n h
    rw [runPDF_cons]
    exact ih _ n (processPDF_has_mono st d now n h)

theorem runPDF_all_skip (now : Nat) (ds : List PDFDoc) : ∀ st : Store,
    (∀ d ∈ ds, hasIngestion st (fileNameOfKey d.fileKey) = true) →
    runPDF now st ds = (st, ds.map (fun _ => skipReport)) := by
  induction ds with
  | nil => intro st _; rfl
  | cons d rest ih =>
    intro st h
    rw [runPDF_cons, processPDF_skip st d now (h d (by simp))]
    rw [ih st (fun d' hd' => h d' (by simp [hd']))]
    simp

theorem processPDF_fail (st : Store) (d : PDFDoc) (now : Nat) (e : String)
    (hs : hasIngestion st (fileNameOfKey d.fileKey) = false)
    (he : d.fetch = .error e) :
    processPDF st d now = (st, failReport) := by
  simp only [processPDF, hs, he]
  rfl

theorem processPDF_notfailed_has (st : Store) (d : PDFDoc) (now : Nat)
    (h : (processPDF st d now).2.outcome ≠ .failed) :
    hasIngestion (processPDF st d now).1 (fileNameOfKey d.fileKey) = true := by
  by_cases hs : hasIngestion st (fileNameOfKey d.fileKey) = true
  · rw [processPDF_skip st d now hs]
    exact hs
  · have hs' : hasIngestion st (fileNameOfKey d.fileKey) = false := by simpa using hs
    cases hf : d.fetch with
    | error e =>
      rw [processPDF_fail st d now e hs' hf] at h
      simp [failReport] at h
    | ok pages =>
      by_cases ha : d.metaAck
      · simp only [processPDF, hs, hf, ha, if_true]
        unfold hasIngestion
        simp [List.any_append]
      · simp only [processPDF, hs, hf, ha, if_false] at h
        simp [failReport] at h

theorem runPDF_notfailed_has (now : Nat) (ds : List PDFDoc) : ∀ st : Store,
    (∀ r ∈ (runPDF now st ds).2, r.outcome ≠ .failed) →
    ∀ d ∈ ds, hasIngestion (runPDF now st ds).1 (fileNameOfKey d.fileKey) = true := by
  induction ds with
  | nil => intro st _ d hd; simp at hd
  | cons d0 rest ih =>
    intro st hall d hd
    rw [runPDF_cons] at hall ⊢
    rcases List.mem_cons.mp hd with rfl | hd'
    · have h0 : (processPDF st d now).2.outcome ≠ .failed := by
        exact hall _ (by simp)
      exact runPDF_has_mono now rest _ _ (processPDF_notfailed_has st d now h0)
    · exact ih (processPDF st d0 now).1 (fun r hr => hall r (by simp [hr])) d hd'

-- ---------------- batch-run lemmas (URDF pipeline) ----------------

theorem runURDF_nil (now : Nat) (st : Store) : runURDF now st [] = (st, []) := rfl

theorem runURDF_cons (now : Nat) (st : Store) (d : URDFDoc) (rest : List URDFDoc) :
    runURDF now st (d :: rest) =
      ((runURDF now (processURDF st d now).1 rest).1,
        (processURDF st d now).2 :: (runURDF now (processURDF st d now).1 rest).2) := rfl

theorem runURDF_append (now : Nat) (xs ys : List URDFDoc) : ∀ st : Store,
    runURDF now st (xs ++ ys) =
      ((runURDF now (runURDF now st xs).1 ys).1,
        (runURDF now st xs).2 ++ (runURDF now (runURDF now st xs).1 ys).2) := by
  induction xs with
  | nil => intro st; simp [runURDF_nil, runURDF_cons]
  | cons d rest ih =>
    intro st
    rw [List.cons_append, runURDF_cons, ih, runURDF_cons]
    simp

theorem processURDF_skip (st : Store) (d : URDFDoc) (now : Nat)
    (h : hasIngestion st d.fileName = true) :
    processURDF st d now = (st, skipReport) := by
  simp only [processURDF, h]
  rfl

theorem processURDF_fail (st : Store) (d : URDFDoc) (now : Nat) (e : String)
    (hs : hasIngestion st d.fileName = false)
    (he : d.parse = .error e) :
    processURDF st d now = (st, failReport) := by
  simp only [processURDF, hs, he]
  rfl

theorem processURDF_ingest_suffix (st : Store) (d : URDFDoc) (now : Nat) :
    ∃ l, (processURDF st d now).1.ingest.docs = st.ingest.docs ++ l := by
  by_cases h : hasIngestion st d.fileName = true
  · rw [processURDF_skip st d now h]
    exact ⟨[], by simp⟩
  · simp only [processURDF, h]
    cases hf : d.parse with
    | error e => exact ⟨[], by simp⟩
    | ok info => exact ⟨_, rfl⟩

theorem processURDF_has_mono (st : Store) (d : URDFDoc) (now : Nat) (n : String)
    (h : hasIngestion st n = true) : hasIngestion (processURDF st d now).1 n = true := by
  obtain ⟨l, hl⟩ := processURDF_ingest_suffix st d now
  unfold hasIngestion at h ⊢
  rw [hl, List.any_append, h]
  rfl

theorem runURDF_has_mono (now : Nat) (ds : List URDFDoc) : ∀ (st : Store) (n : String),
    hasIngestion st n = true → hasIngestion (runURDF now st ds).1 n = true := by
  induction ds with
  | nil => intro st n h; exact h
  | cons d rest ih =>
    intro st n h
    rw [runURDF_cons]
    exact ih _ n (processURDF_has_mono st d now n h)

theorem runURDF_all_skip (now : Nat) (ds : List URDFDoc) : ∀ st : Store,
    (∀ d ∈ ds, hasIngestion st d.fileName = true) →
    runURDF now st ds = (st, ds.map (fun _ => skipReport)) := by
  induction ds with
  | nil => intro st _; rfl
  | cons d rest ih =>
    intro st h
    rw [runURDF_cons, processURDF_skip st d now (h d (by simp))]
    rw [ih st (fun d' hd' => h d' (by simp [hd']))]
    simp

theorem processURDF_notfailed_has (st : Store) (d : URDFDoc) (now : Nat)
    (h : (processURDF st d now).2.outcome ≠ .failed) :
    hasIngestion (processURDF st d now).1 d.fileName = true := by
  by_cases hs : hasIngestion st d.fileName = true
  · rw [processURDF_skip st d now hs]
    exact hs
  · have hs' : hasIngestion st d.fileName = false := by simpa using hs
    cases hf : d.parse with
    | error e =>
      rw [processURDF_fail st d now e hs' hf] at h
      simp [failReport] at h
    | ok info =>
      simp only [processURDF, hs, hf]
      unfold hasIngestion
      simp [List.any_append]

theorem runURDF_notfailed_has (now : Nat) (ds : List URDFDoc) : ∀ st : Store,
    (∀ r ∈ (runURDF now st ds).2, r.outcome ≠ .failed) →
    ∀ d ∈ ds, hasIngestion (runURDF now st ds).1 d.fileName = true := by
  induction ds with
  | nil => intro st _ d hd; simp at hd
  | cons d0 rest ih =>
    intro st hall d hd
    rw [runURDF_cons] at hall ⊢
    rcases List.mem_cons.mp hd with rfl | hd'
    · have h0 : (processURDF st d now).2.outcome ≠ .failed := by
        exact hall _ (by simp)
      exact runURDF_has_mono now rest _ _ (processURDF_notfailed_has st d now h0)
    · exact ih (processURDF st d0 now).1 (fun r hr => hall r (by simp [hr])) d hd'


-- ---------------- batching equals the flat run ----------------

theorem chunk3_join : ∀ (xs : List α), (chunk3 xs).flatten = xs
  | [] => rfl
  | [_] => rfl
  | [_, _] => rfl
  | a :: b :: c :: rest => by
    show ([a, b, c] :: chunk3 rest).flatten = a :: b :: c :: rest
    rw [List.flatten_cons, chunk3_join rest]
    rfl

theorem batchesPDF_foldl (now : Nat) : ∀ (bs : List (List PDFDoc)) (st : Store) (p f : Nat),
    bs.foldl
      (fun acc batch =>
        let r := runPDF now acc.1 batch
        (r.1,
         acc.2.1 + r.2.countP (fun rep => decide (rep.outcome ≠ .failed)),
         acc.2.2 + r.2.countP (fun rep => decide (rep.outcome = .failed))))
      (st, p, f) =
    ((runPDF now st bs.flatten).1,
     p + (runPDF now st bs.flatten).2.countP (fun rep => decide (rep.outcome ≠ .failed)),
     f + (runPDF now st bs.flatten).2.countP (fun rep => decide (rep.outcome = .failed))) := by
  intro bs
  induction bs with
  | nil => intro st p f; simp [runPDF_nil]
  | cons b rest ih =>
    intro st p f
    rw [List.foldl_cons, ih, List.flatten_cons, runPDF_append now b rest.flatten]
    rw [List.countP_append, List.countP_append]
    simp [Nat.add_assoc]

theorem batchesPDF_eq (st : Store) (files : List PDFDoc) (now : Nat) :
    processInBatchesPDF st files now =
      ((runPDF now st files).1,
       (runPDF now st files).2.countP (fun rep => decide (rep.outcome ≠ .failed)),
       (runPDF now st files).2.countP (fun rep => decide (rep.outcome = .failed))) := by
  unfold processInBatchesPDF
  rw [batchesPDF_foldl now (chunk3 files) st 0 0, chunk3_join]
  simp

theorem batchesURDF_foldl (now : Nat) : ∀ (bs : List (List URDFDoc)) (st : Store) (p f : Nat),
    bs.foldl
      (fun acc batch =>
        let r := runURDF now acc.1 batch
        (r.1,
         acc.2.1 + r.2.countP (fun rep => decide (rep.outcome ≠ .failed)),
         acc.2.2 + r.2.countP (fun rep => decide (rep.outcome = .failed))))
      (st, p, f) =
    ((runURDF now st bs.flatten).1,
     p + (runURDF now st bs.flatten).2.countP (fun rep => decide (rep.outcome ≠ .failed)),
     f + (runURDF now st bs.flatten).2.countP (fun rep => decide (rep.outcome = .failed))) := by
  intro bs
  induction bs with
  | nil => intro st p f; simp [runURDF_nil]
  | cons b rest ih =>
    intro st p f
    rw [List.foldl_cons, ih, List.flatten_cons, runURDF_append now b rest.flatten]
    rw [List.countP_append, List.countP_append]
    simp [Nat.add_assoc]

theorem batchesURDF_eq (st : Store) (files : List URDFDoc) (now : Nat) :
    processInBatchesURDF st files now =
      ((runURDF now st files).1,
       (runURDF now st files).2.countP (fun rep => decide (rep.outcome ≠ .failed)),
       (runURDF now st files).2.countP (fun rep => decide (rep.outcome = .failed))) := by
  unfold processInBatchesURDF
  rw [batchesURDF_foldl now (chunk3 files) st 0 0, chunk3_join]
  simp

-- ---------------- C4: idempotent re-run ----------------

/-- C4: a source document whose derived file name already has an ingestion
record is skipped — the store is unchanged and the result does not depend on
the document's text, candidates or acknowledgements (the statement quantifies
over every such document) — and consequently a run over sources that are all
already recorded, and in particular a re-run over the same sources after a
run with no failures, leaves the store unchanged: zero new IngestionRecords
and zero new ProductRecords, every document reported skipped.  Both the PDF
and the URDF pipeline are covered. -/
theorem spec_C4 :
    (∀ (st : Store) (d : PDFDoc) (now : Nat),
        hasIngestion st (fileNameOfKey d.fileKey) = true →
        processPDF st d now = (st, skipReport))
    ∧ (∀ (st : Store) (d : URDFDoc) (now : Nat),
        hasIngestion st d.fileName = true →
        processURDF st d now = (st, skipReport))
    ∧ (∀ (st : Store) (ds : List PDFDoc) (now : Nat),
        (∀ d ∈ ds, hasIngestion st (fileNameOfKey d.fileKey) = true) →
        runPDF now st ds = (st, ds.map (fun _ => skipReport)))
    ∧ (∀ (st : Store) (ds : List URDFDoc) (now : Nat),
        (∀ d ∈ ds, hasIngestion st d.fileName = true) →
        runURDF now st ds = (st, ds.map (fun _ => skipReport)))
    ∧ (∀ (st : Store) (ds : List PDFDoc) (now now2 : Nat),
        (∀ r ∈ (runPDF now st ds).2, r.outcome ≠ .failed) →
        runPDF now2 (runPDF now st ds).1 ds =
          ((runPDF now st ds).1, ds.map (fun _ => skipReport)))
    ∧ (∀ (st : Store) (ds : List URDFDoc) (now now2 : Nat),
        (∀ r ∈ (runURDF now st ds).2, r.outcome ≠ .failed) →
        runURDF now2 (runURDF now st ds).1 ds =
          ((runURDF now st ds).1, ds.map (fun _ => skipReport))) := by
  refine ⟨processPDF_skip, processURDF_skip,
    fun st ds now h => runPDF_all_skip now ds st h,
    fun st ds now h => runURDF_all_skip now ds st h, ?_, ?_⟩
  · intro st ds now now2 hall
    exact runPDF_all_skip now2 ds (runPDF now st ds).1 (runPDF_notfailed_has now ds st hall)
  · intro st ds now now2 hall
    exact runURDF_all_skip now2 ds (runURDF now st ds).1 (runURDF_notfailed_has now ds st hall)

/-- C4 witness: a store already holding a record for `a.pdf` skips the
document with that derived file name, leaving the store unchanged. -/
theorem spec_C4_witness :
    hasIngestion c4Store (fileNameOfKey cexPDFA.fileKey) = true
    ∧ processPDF c4Store cexPDFA 3 = (c4Store, skipReport) :=
  ⟨by decide, spec_C4.1 c4Store cexPDFA 3 (by decide)⟩

-- ---------------- C5: batch failure isolation ----------------

/-- C5: a document that throws during text fetch settles as exactly one
failure and changes nothing: the run over `pre ++ [bad] ++ suf` produces the
same store and the same sibling reports as the run over `pre ++ suf`, with
one extra failed report in place; the batch orchestrator completes with a
final tally whose failure count is exactly one higher and whose success count
is the same. -/
theorem spec_C5 (st : Store) (now : Nat) (pre suf : List PDFDoc) (bad : PDFDoc)
    (e : String) (he : bad.fetch = .error e)
    (hfresh : hasIngestion (runPDF now st pre).1 (fileNameOfKey bad.fileKey) = false) :
    runPDF now st (pre ++ bad :: suf) =
      ((runPDF now (runPDF now st pre).1 suf).1,
        (runPDF now st pre).2 ++ failReport :: (runPDF now (runPDF now st pre).1 suf).2)
    ∧ runPDF now st (pre ++ suf) =
      ((runPDF now (runPDF now st pre).1 suf).1,
        (runPDF now st pre).2 ++ (runPDF now (runPDF now st pre).1 suf).2)
    ∧ (processInBatchesPDF st (pre ++ bad :: suf) now).1 =
        (processInBatchesPDF st (pre ++ suf) now).1
    ∧ (processInBatchesPDF st (pre ++ bad :: suf) now).2.1 =
        (processInBatchesPDF st (pre ++ suf) now).2.1
    ∧ (processInBatchesPDF st (pre ++ bad :: suf) now).2.2 =
        (processInBatchesPDF st (pre ++ suf) now).2.2 + 1 := by
  have hbad := processPDF_fail (runPDF now st pre).1 bad now e hfresh he
  have h1 : runPDF now st (pre ++ bad :: suf) =
      ((runPDF now (runPDF now st pre).1 suf).1,
        (runPDF now st pre).2 ++ failReport :: (runPDF now (runPDF now st pre).1 suf).2) := by
    rw [runPDF_append now pre (bad :: suf), runPDF_cons, hbad]
  have h2 := runPDF_append now pre suf st
  refine ⟨h1, h2, ?_, ?_, ?_⟩
  · rw [batchesPDF_eq, batchesPDF_eq, h1, h2]
  · rw [batchesPDF_eq, batchesPDF_eq, h1, h2]
    simp [List.countP_append, List.countP_cons, failReport]
  · rw [batchesPDF_eq, batchesPDF_eq, h1, h2]
    simp [List.countP_append, List.countP_cons, failReport]
    omega

/-- C5 witness: in the concrete group `[A, bad, B]` the failing middle
document leaves the other two processed and persisted exactly as without it,
and the run tally is 2 succeeded / 1 failed. -/
theorem spec_C5_witness :
    (processInBatchesPDF emptyStore [cexPDFA, cexPDFbad, cexPDFB] 0).1 =
      (processInBatchesPDF emptyStore [cexPDFA, cexPDFB] 0).1
    ∧ (processInBatchesPDF emptyStore [cexPDFA, cexPDFbad, cexPDFB] 0).2.1 =
        (processInBatchesPDF emptyStore [cexPDFA, cexPDFB] 0).2.1
    ∧ (processInBatchesPDF emptyStore [cexPDFA, cexPDFbad, cexPDFB] 0).2.2 =
        (processInBatchesPDF emptyStore [cexPDFA, cexPDFB] 0).2.2 + 1 :=
  have h := spec_C5 emptyStore 0 [cexPDFA] [cexPDFB] cexPDFbad "Textract failed"
    rfl (by decide)
  ⟨h.2.2.1, h.2.2.2.1, h.2.2.2.2⟩

-- ---------------- C10: per-candidate failures stay local ----------------

theorem pdfLoop_counts (ctx : PDFCtx) : ∀ (cs : List Candidate) (col : ProductsCol) (i : Nat),
    (pdfLoop ctx col i cs).2.1 + (pdfLoop ctx col i cs).2.2 = cs.length
    ∧ (pdfLoop ctx col i cs).2.2 =
        (List.enumFrom i cs).countP
          (fun pc => decide (pc.2.name = "" ∨ pc.2.brand = "") || !ctx.prodAck pc.1) := by
  intro cs
  induction cs with
  | nil => intro col i; simp [pdfLoop]
  | cons c rest ih =>
    intro col i
    have hcons : (List.enumFrom i (c :: rest)).countP
        (fun pc => decide (pc.2.name = "" ∨ pc.2.brand = "") || !ctx.prodAck pc.1) =
        (List.enumFrom (i + 1) rest).countP
          (fun pc => decide (pc.2.name = "" ∨ pc.2.brand = "") || !ctx.prodAck pc.1) +
        (if decide (c.name = "" ∨ c.brand = "") || !ctx.prodAck i then 1 else 0) := by
      simp [List.enumFrom_cons, List.countP_cons]
    by_cases hv : c.name = "" ∨ c.brand = ""
    · obtain ⟨ha, hb⟩ := ih col (i + 1)
      have hL : pdfLoop ctx col i (c :: rest) =
          ((pdfLoop ctx col (i + 1) rest).1,
            (pdfLoop ctx col (i + 1) rest).2.1,
            (pdfLoop ctx col (i + 1) rest).2.2 + 1) := by
        simp only [pdfLoop]
        rw [if_pos hv]
      have hpred : (decide (c.name = "" ∨ c.brand = "") || !ctx.prodAck i) = true := by
        simp [hv]
      constructor
      · simp only [hL, List.length_cons]
        omega
      · simp only [hL, hcons, hpred, if_true]
        omega
    · by_cases hack : ctx.prodAck i = true
      · obtain ⟨ha, hb⟩ := ih (insertProductDoc col (mkPDFProductDoc ctx c)) (i + 1)
        have hL : pdfLoop ctx col i (c :: rest) =
            ((pdfLoop ctx (insertProductDoc col (mkPDFProductDoc ctx c)) (i + 1) rest).1,
              (pdfLoop ctx (insertProductDoc col (mkPDFProductDoc ctx c)) (i + 1) rest).2.1 + 1,
              (pdfLoop ctx (insertProductDoc col (mkPDFProductDoc ctx c)) (i + 1) rest).2.2) := by
          simp only [pdfLoop]
          rw [if_neg hv, if_pos hack]
        have hpred : (decide (c.name = "" ∨ c.brand = "") || !ctx.prodAck i) = false := by
          simp [hv, hack]
        constructor
        · simp only [hL, List.length_cons]
          omega
        · simp only [hL, hcons, hpred, Bool.false_eq_true, if_false]
          omega
      · have hackf : ctx.prodAck i = false := by simpa using hack
        obtain ⟨ha, hb⟩ := ih col (i + 1)
        have hL : pdfLoop ctx col i (c :: rest) =
            ((pdfLoop ctx col (i + 1) rest).1,
              (pdfLoop ctx col (i + 1) rest).2.1,
              (pdfLoop ctx col (i + 1) rest).2.2 + 1) := by
          simp only [pdfLoop]
          rw [if_neg hv, if_neg (by simp [hackf])]
        have hpred : (decide (c.name = "" ∨ c.brand = "") || !ctx.prodAck i) = true := by
          simp [hv, hackf]
        constructor
        · simp only [hL, List.length_cons]
          omega
        · simp only [hL, hcons, hpred, if_true]
          omega

/-- C10: a document whose text fetch and metadata insert succeed settles as a
success no matter what its candidates do: per-candidate failures (mandatory
field validation, unacknowledged persistence) are caught inside the document
processor and only counted in the per-document `failedCount` (which together
with `savedCount` accounts for every candidate), the document's ingestion
record is persisted, and the run-level tally counts the document as 1
succeeded / 0 failed.  The URDF document processor likewise settles
successfully once its parse succeeds, whatever its candidates. -/
theorem spec_C10 :
    (∀ (st : Store) (d : PDFDoc) (now : Nat) (pages : List PageData),
        hasIngestion st (fileNameOfKey d.fileKey) = false →
        d.fetch = .ok pages → d.metaAck = true →
        (processPDF st d now).2.outcome = .success
        ∧ (processPDF st d now).2.savedCount + (processPDF st d now).2.failedCount =
            d.candidates.length
        ∧ (processPDF st d now).2.failedCount =
            (List.enumFrom 0 d.candidates).countP
              (fun pc => decide (pc.2.name = "" ∨ pc.2.brand = "") || !d.prodAck pc.1)
        ∧ hasIngestion (processPDF st d now).1 (fileNameOfKey d.fileKey) = true
        ∧ (processInBatchesPDF st [d] now).2.1 = 1
        ∧ (processInBatchesPDF st [d] now).2.2 = 0)
    ∧ (∀ (st : Store) (d : URDFDoc) (now : Nat) (info : URDFParsed),
        hasIngestion st d.fileName = false →
        d.parse = .ok info →
        (processURDF st d now).2.outcome = .success) := by
  constructor
  · intro st d now pages hs hf hack
    have hout : (processPDF st d now).2.outcome = .success := by
      simp only [processPDF, hs, hf, hack, if_true]
      rfl
    have hcounts := pdfLoop_counts
      { pdfId := st.ingest.nextId, fileName := fileNameOfKey d.fileKey,
        fileKey := d.fileKey, s3Link := d.s3Link, pagesData := pages,
        combinedText := joinTexts (pages.map (fun p => p.text)), now := now,
        prodAck := d.prodAck } d.candidates st.products 0
    refine ⟨hout, ?_, ?_, processPDF_notfailed_has st d now (by rw [hout]; simp), ?_, ?_⟩
    · simp only [processPDF, hs, hf, hack, if_true]
      exact hcounts.1
    · simp only [processPDF, hs, hf, hack, if_true]
      exact hcounts.2
    · rw [batchesPDF_eq]
      rw [show runPDF now st [d] =
        ((processPDF st d now).1, [(processPDF st d now).2]) from rfl]
      simp [List.countP_cons, hout]
    · rw [batchesPDF_eq]
      rw [show runPDF now st [d] =
        ((processPDF st d now).1, [(processPDF st d now).2]) from rfl]
      simp [List.countP_cons, hout]
  · intro st d now info hs hf
    simp only [processURDF, hs, hf]
    rfl

/-- C10 witness: the document whose two candidates both fail (one invalid,
one unacknowledged) still settles successfully, with a per-document failure
count of 2 and a run tally of 1 succeeded / 0 failed. -/
theorem spec_C10_witness :
    (processPDF emptyStore cexPDFfail 0).2.outcome = .success
    ∧ (processPDF emptyStore cexPDFfail 0).2.failedCount = 2
    ∧ (processPDF emptyStore cexPDFfail 0).2.savedCount = 0
    ∧ (processInBatchesPDF emptyStore [cexPDFfail] 0).2.1 = 1
    ∧ (processInBatchesPDF emptyStore [cexPDFfail] 0).2.2 = 0 :=
  have h := spec_C10.1 emptyStore cexPDFfail 0 [] (by decide) rfl rfl
  ⟨h.1, (h.2.2.1).trans (by decide), by decide, h.2.2.2.2.1, h.2.2.2.2.2⟩

-- ---------------- C1: dedup by normalized key ----------------

/-- C1 counterexample: the PDF ingestion pipeline inserts every validated
candidate with `insertOne` and never performs the key lookup, so two
candidates with equal normalized keys from two different source documents
produce two ProductRecords for that key, not one. -/
theorem spec_C1_counterexample :
    normalizeProductData cexCandA = normalizeProductData cexCandB
    ∧ ((runPDF 0 emptyStore [cexPDFA, cexPDFB]).1.products.docs.filter
        (keyMatch (normalizeProductData cexCandA))).length = 2 := by
  decide

theorem mapIdOf {f : α → α} : ∀ (l : List α), (∀ a ∈ l, f a = a) → l.map f = l
  | [], _ => rfl
  | a :: l, h => by
    rw [List.map_cons, h a (by simp), mapIdOf l (fun x hx => h x (by simp [hx]))]

theorem find?_append_none {p : α → Bool} : ∀ (l1 : List α), l1.find? p = none →
    ∀ l2 : List α, (l1 ++ l2).find? p = l2.find? p
  | [], _, _ => rfl
  | a :: l1, h, l2 => by
    cases hpa : p a with
    | true =>
      rw [List.find?_cons_of_pos _ hpa] at h
      exact absurd h (by simp)
    | false =>
      rw [List.find?_cons_of_neg _ (by simp [hpa])] at h
      rw [List.cons_append, List.find?_cons_of_neg _ (by simp [hpa])]
      exact find?_append_none l1 h l2

theorem normalizeFields_jsOrStr (n b : String) (pt : Option String) :
    normalizeFields n b (jsOrStr pt) = normalizeFields n b pt := by
  cases pt with
  | none => rfl
  | some s =>
    by_cases hs : s = ""
    · subst hs
      rw [normalizeFields_eq, normalizeFields_eq]
      rfl
    · simp [jsOrStr, hs]

theorem normalizeDoc_mkURDF (ctx : URDFCtx) (c : Candidate) :
    normalizeDoc (mkURDFProductDoc ctx c) = normalizeProductData c := by
  unfold normalizeDoc mkURDFProductDoc normalizeProductData
  exact normalizeFields_jsOrStr c.name c.brand c.product_type

theorem mergeUpdate_norm (r : ProductRecord) (d : ProductDoc) (now : Nat) :
    (mergeUpdate r d now).norm = r.norm := rfl

theorem keyMatch_self (k : NormKey) (p : ProductRecord) (h : p.norm = k) :
    keyMatch k p = true := by
  unfold keyMatch
  rw [h]
  simp

/-- C1 (amended): in the URDF ingestion pipeline, which is the one that calls
`upsertProduct`, two candidates with equal normalized keys from two different
source documents processed against the same store (holding no record for that
key and no ingestion record for either file) produce exactly one
ProductRecord for that key, carrying a `source_refs` entry from each
document.  The PDF ingestion pipeline inserts without any key lookup and
does not have this property (see the counterexample). -/
theorem spec_C1 (st : Store) (nA nB : String) (iA iB : URDFParsed) (cA cB : Candidate)
    (now : Nat)
    (hA1 : ¬(cA.name = "" ∨ cA.brand = "")) (hB1 : ¬(cB.name = "" ∨ cB.brand = ""))
    (hkey : normalizeProductData cA = normalizeProductData cB)
    (hfA : hasIngestion st nA = false) (hfB : hasIngestion st nB = false) (hAB : nA ≠ nB)
    (hnokey : ∀ p ∈ st.products.docs, keyMatch (normalizeProductData cA) p = false)
    (hids : ∀ p ∈ st.products.docs, p.id < st.products.nextId) :
    ((runURDF now st [⟨nA, .ok iA, [cA]⟩, ⟨nB, .ok iB, [cB]⟩]).1.products.docs.filter
        (keyMatch (normalizeProductData cA))).length = 1
    ∧ ∃ p ∈ (runURDF now st [⟨nA, .ok iA, [cA]⟩, ⟨nB, .ok iB, [cB]⟩]).1.products.docs,
        keyMatch (normalizeProductData cA) p = true
        ∧ (∃ r ∈ p.source_refs, r.fileName = nA)
        ∧ (∃ r ∈ p.source_refs, r.fileName = nB) := by
  have hdupA : checkDuplicate st.products
      (mkURDFProductDoc ⟨st.ingest.nextId, nA, iA, now⟩ cA) = none := by
    unfold checkDuplicate
    rw [normalizeDoc_mkURDF, List.find?_eq_none]
    intro p hp
    simp [hnokey p hp]
  have hupsA : upsertProduct st.products
      (mkURDFProductDoc ⟨st.ingest.nextId, nA, iA, now⟩ cA) now =
      (insertProductDoc st.products (mkURDFProductDoc ⟨st.ingest.nextId, nA, iA, now⟩ cA),
        .inserted st.products.nextId) := by
    unfold upsertProduct
    rw [hdupA]
  have hloopA : urdfLoop ⟨st.ingest.nextId, nA, iA, now⟩ st.products [cA] =
      (insertProductDoc st.products (mkURDFProductDoc ⟨st.ingest.nextId, nA, iA, now⟩ cA),
        1, 0, 0) := by
    simp only [urdfLoop]
    rw [if_neg hA1, hupsA]
  have hstA : (processURDF st ⟨nA, .ok iA, [cA]⟩ now).1 =
      ⟨⟨st.ingest.docs ++ [⟨st.ingest.nextId, nA, 1, now⟩], st.ingest.nextId + 1⟩,
        insertProductDoc st.products
          (mkURDFProductDoc ⟨st.ingest.nextId, nA, iA, now⟩ cA)⟩ := by
    simp only [processURDF, hfA]
    rw [hloopA]
    rfl
  have hfB2 : hasIngestion
      (⟨⟨st.ingest.docs ++ [⟨st.ingest.nextId, nA, 1, now⟩], st.ingest.nextId + 1⟩,
        insertProductDoc st.products
          (mkURDFProductDoc ⟨st.ingest.nextId, nA, iA, now⟩ cA)⟩ : Store) nB = false := by
    unfold hasIngestion at hfB ⊢
    simp only [List.any_append, hfB, Bool.false_or, List.any_cons, List.any_nil,
      Bool.or_false]
    simp [hAB]
  have hnone : st.products.docs.find? (keyMatch (normalizeProductData cA)) = none := by
    rw [List.find?_eq_none]
    intro p hp
    simp [hnokey p hp]
  have hrecA : (docToRecord (mkURDFProductDoc ⟨st.ingest.nextId, nA, iA, now⟩ cA)
      st.products.nextId).norm = normalizeProductData cA := rfl
  have hdupB : checkDuplicate
      (insertProductDoc st.products (mkURDFProductDoc ⟨st.ingest.nextId, nA, iA, now⟩ cA))
      (mkURDFProductDoc ⟨st.ingest.nextId + 1, nB, iB, now⟩ cB) =
      some (docToRecord (mkURDFProductDoc ⟨st.ingest.nextId, nA, iA, now⟩ cA)
        st.products.nextId) := by
    unfold checkDuplicate insertProductDoc
    rw [normalizeDoc_mkURDF, ← hkey]
    rw [find?_append_none st.products.docs hnone]
    rw [List.find?_cons_of_pos _ (keyMatch_self _ _ hrecA)]
  have hmapid : st.products.docs.map
      (fun p => if p.id = (docToRecord (mkURDFProductDoc ⟨st.ingest.nextId, nA, iA, now⟩ cA)
          st.products.nextId).id then
        mergeUpdate (docToRecord (mkURDFProductDoc ⟨st.ingest.nextId, nA, iA, now⟩ cA)
          st.products.nextId) (mkURDFProductDoc ⟨st.ingest.nextId + 1, nB, iB, now⟩ cB) now
      else p) = st.products.docs := by
    apply mapIdOf
    intro p hp
    exact if_neg (Nat.ne_of_lt (hids p hp))
  have hupsB : (upsertProduct
      (insertProductDoc st.products (mkURDFProductDoc ⟨st.ingest.nextId, nA, iA, now⟩ cA))
      (mkURDFProductDoc ⟨st.ingest.nextId + 1, nB, iB, now⟩ cB) now).1 =
      ⟨st.products.docs ++
        [mergeUpdate (docToRecord (mkURDFProductDoc ⟨st.ingest.nextId, nA, iA, now⟩ cA)
            st.products.nextId) (mkURDFProductDoc ⟨st.ingest.nextId + 1, nB, iB, now⟩ cB) now],
        st.products.nextId + 1⟩ := by
    unfold upsertProduct
    rw [hdupB]
    show (⟨(st.products.docs ++ [_]).map _, st.products.nextId + 1⟩ : ProductsCol) = _
    rw [List.map_append, hmapid]
    simp
  have hloopB : (urdfLoop ⟨st.ingest.nextId + 1, nB, iB, now⟩
      (insertProductDoc st.products (mkURDFProductDoc ⟨st.ingest.nextId, nA, iA, now⟩ cA))
      [cB]).1 =
      ⟨st.products.docs ++
        [mergeUpdate (docToRecord (mkURDFProductDoc ⟨st.ingest.nextId, nA, iA, now⟩ cA)
            st.products.nextId) (mkURDFProductDoc ⟨st.ingest.nextId + 1, nB, iB, now⟩ cB) now],
        st.products.nextId + 1⟩ := by
    simp only [urdfLoop]
    rw [if_neg hB1]
    rcases hu : upsertProduct
        (insertProductDoc st.products (mkURDFProductDoc ⟨st.ingest.nextId, nA, iA, now⟩ cA))
        (mkURDFProductDoc ⟨st.ingest.nextId + 1, nB, iB, now⟩ cB) now with ⟨col2, res⟩
    have h1 : col2 =
        ⟨st.products.docs ++
          [mergeUpdate (docToRecord (mkURDFProductDoc ⟨st.ingest.nextId, nA, iA, now⟩ cA)
              st.products.nextId) (mkURDFProductDoc ⟨st.ingest.nextId + 1, nB, iB, now⟩ cB) now],
          st.products.nextId + 1⟩ := by
      have h2 := hupsB
      rw [hu] at h2
      exact h2
    subst h1
    cases res <;> rfl
  have hrun : (runURDF now st [⟨nA, .ok iA, [cA]⟩, ⟨nB, .ok iB, [cB]⟩]).1.products.docs =
      st.products.docs ++
        [mergeUpdate (docToRecord (mkURDFProductDoc ⟨st.ingest.nextId, nA, iA, now⟩ cA)
            st.products.nextId) (mkURDFProductDoc ⟨st.ingest.nextId + 1, nB, iB, now⟩ cB) now] := by
    rw [runURDF_cons, runURDF_cons, runURDF_nil, hstA]
    simp only [processURDF, hfB2]
    rw [hloopB]
    rfl
  have hmnorm : (mergeUpdate (docToRecord (mkURDFProductDoc ⟨st.ingest.nextId, nA, iA, now⟩ cA)
      st.products.nextId) (mkURDFProductDoc ⟨st.ingest.nextId + 1, nB, iB, now⟩ cB) now).norm =
      normalizeProductData cA := rfl
  have hrefs : (mergeUpdate (docToRecord (mkURDFProductDoc ⟨st.ingest.nextId, nA, iA, now⟩ cA)
      st.products.nextId) (mkURDFProductDoc ⟨st.ingest.nextId + 1, nB, iB, now⟩ cB) now).source_refs =
      [⟨"urdf_extract", "urdfExtracts", st.ingest.nextId, none, nA, some iA.filePath,
          jsOrStr cA.component_type⟩,
        ⟨"urdf_extract", "urdfExtracts", st.ingest.nextId + 1, none, nB, some iB.filePath,
          jsOrStr cB.component_type⟩] := by
    show addRefs
        [⟨"urdf_extract", "urdfExtracts", st.ingest.nextId, none, nA, some iA.filePath,
          jsOrStr cA.component_type⟩]
        [⟨"urdf_extract", "urdfExtracts", st.ingest.nextId + 1, none, nB, some iB.filePath,
          jsOrStr cB.component_type⟩] = _
    unfold addRefs
    simp only [List.foldl_cons, List.foldl_nil]
    rw [if_neg]
    · rfl
    · intro hmem
      rw [List.mem_singleton] at hmem
      exact hAB (congrArg SourceRef.fileName hmem).symm
  constructor
  · rw [hrun, List.filter_append]
    rw [List.filter_eq_nil_iff.mpr (fun p hp => by simp [hnokey p hp])]
    rw [List.filter_cons_of_pos (keyMatch_self _ _ hmnorm)]
    rfl
  · refine ⟨mergeUpdate (docToRecord (mkURDFProductDoc ⟨st.ingest.nextId, nA, iA, now⟩ cA)
      st.products.nextId) (mkURDFProductDoc ⟨st.ingest.nextId + 1, nB, iB, now⟩ cB) now,
      ?_, keyMatch_self _ _ hmnorm, ?_, ?_⟩
    · rw [hrun]
      simp
    · rw [hrefs]
      exact ⟨⟨"urdf_extract", "urdfExtracts", st.ingest.nextId, none, nA,
        some iA.filePath, jsOrStr cA.component_type⟩, by simp, rfl⟩
    · rw [hrefs]
      exact ⟨⟨"urdf_extract", "urdfExtracts", st.ingest.nextId + 1, none, nB,
        some iB.filePath, jsOrStr cB.component_type⟩, by simp, rfl⟩

/-- C1 witness: the two URDF documents carrying `{name: "Robo Arm", brand:
"ABB"}` and `{name: "robo arm", brand: "abb"}` merge into exactly one record
with a provenance entry from each file. -/
theorem spec_C1_witness :
    ((runURDF 5 emptyStore [cexURDFA, cexURDFB]).1.products.docs.filter
        (keyMatch (normalizeProductData cexCandA))).length = 1
    ∧ ∃ p ∈ (runURDF 5 emptyStore [cexURDFA, cexURDFB]).1.products.docs,
        keyMatch (normalizeProductData cexCandA) p = true
        ∧ (∃ r ∈ p.source_refs, r.fileName = "a.urdf")
        ∧ (∃ r ∈ p.source_refs, r.fileName = "b.urdf") :=
  spec_C1 emptyStore "a.urdf" "b.urdf" ⟨"arm", "/u/a.urdf", "t"⟩ ⟨"arm", "/u/b.urdf", "t"⟩
    cexCandA cexCandB 5 (by decide) (by decide) (by decide) rfl rfl (by decide)
    (by simp [emptyStore]) (by simp [emptyStore])
